import Mathlib

namespace ShadowCaster

/-- The four sides of a cell, in the source's index order
`NORTH = 0, EAST = 1, SOUTH = 2, WEST = 3`. -/
inductive Side where
  | north
  | east
  | south
  | west
deriving DecidableEq

/-- A boundary segment in grid-unit coordinates (source type `Edge`). -/
structure Edge where
  sx : Int
  sy : Int
  ex : Int
  ey : Int
deriving DecidableEq

/-- Per-cell side bookkeeping (source type `Cell`, minus the redundant
`x`/`y` fields, which in this embedding are the indices of `cellData`). -/
structure CellData where
  existEdges : Side → Bool
  edgeIds : Side → Nat

/-- Source `createCell`: fresh cells have all sides `false` and all ids `0`. -/
def createCell : CellData :=
  { existEdges := fun _ => false, edgeIds := fun _ => 0 }

/-- The sparse occupancy map: `occ x y = true` iff a cell exists at `(x, y)`
(source `hasCell`). -/
def Grid : Type := Int → Int → Bool

/-- Mutable state of the edge extractor: the per-cell side data of the cell
map, and the edge table.  The source stores edges in a `Map` keyed by a
counter that starts at 1 and iterates in insertion order, so edge id `i`
is position `i - 1` of the insertion-ordered list and `addEdge` returns
`length + 1`. -/
structure EState where
  cellData : Int → Int → CellData
  edges : List Edge

/-- Source `getCell`: the cell's data when the cell exists. -/
def getCell (occ : Grid) (s : EState) (x y : Int) : Option CellData :=
  if occ x y then some (s.cellData x y) else none

/-- Write one side's `existEdges`/`edgeIds` entries of the cell at `(x, y)`. -/
def writeSide (x y : Int) (sd : Side) (b : Bool) (i : Nat) (s : EState) : EState :=
  { s with
    cellData := fun a b' =>
      if a = x ∧ b' = y then
        { existEdges := fun sd' => if sd' = sd then b else (s.cellData x y).existEdges sd'
          edgeIds := fun sd' => if sd' = sd then i else (s.cellData x y).edgeIds sd' }
      else s.cellData a b' }

/-- Replace the element at a position of a list (no-op when out of range). -/
def listModify (f : Edge → Edge) : Nat → List Edge → List Edge
  | _, [] => []
  | 0, e :: es => f e :: es
  | n + 1, e :: es => e :: listModify f n es

/-- Source `getEdge(id)` followed by a field mutation: edge id `i` lives at
list position `i - 1`. -/
def modifyEdge (i : Nat) (f : Edge → Edge) (s : EState) : EState :=
  { s with edges := listModify f (i - 1) s.edges }

/-- Source `addEdge`: append the edge; its id is the new length. -/
def appendEdge (e : Edge) (s : EState) : EState :=
  { s with edges := s.edges ++ [e] }

/-- The shared shape of the four per-side blocks of source `computeEdges`:
if the cell across the side exists, clear that side's flag and id;
otherwise flag the side, and either reuse the extending neighbor's edge id
and stretch that edge (`extendF`), or allocate a fresh unit edge
(`newEdge`) whose id is the next counter value `length + 1`. -/
def processSide (c : Bool) (nb : Option CellData) (sd : Side) (x y : Int)
    (extendF : Edge → Edge) (newEdge : Edge) (s : EState) : EState :=
  if c then
    writeSide x y sd false 0 s
  else
    match nb with
    | some l =>
      if l.existEdges sd then
        modifyEdge (l.edgeIds sd) extendF (writeSide x y sd true (l.edgeIds sd) s)
      else
        writeSide x y sd true (s.edges.length + 1) (appendEdge newEdge s)
    | none =>
      writeSide x y sd true (s.edges.length + 1) (appendEdge newEdge s)

/-- The `// check north edge` block: neighbor `(x, y-1)`, extending neighbor
`(x-1, y)`, extension stretches `ex` to `x+1`, fresh edge `(x,y)-(x+1,y)`. -/
def processNorth (occ : Grid) (x y : Int) (s : EState) : EState :=
  processSide (occ x (y - 1)) (getCell occ s (x - 1) y) Side.north x y
    (fun e => { e with ex := x + 1 }) ⟨x, y, x + 1, y⟩ s

/-- The `// check east edge` block: neighbor `(x+1, y)`, extending neighbor
`(x, y-1)`, extension stretches `ey` to `y+1`, fresh edge `(x+1,y)-(x+1,y+1)`. -/
def processEast (occ : Grid) (x y : Int) (s : EState) : EState :=
  processSide (occ (x + 1) y) (getCell occ s x (y - 1)) Side.east x y
    (fun e => { e with ey := y + 1 }) ⟨x + 1, y, x + 1, y + 1⟩ s

/-- The `// check south edge` block: neighbor `(x, y+1)`, extending neighbor
`(x-1, y)`, extension stretches `ex` to `x+1`, fresh edge `(x,y+1)-(x+1,y+1)`. -/
def processSouth (occ : Grid) (x y : Int) (s : EState) : EState :=
  processSide (occ x (y + 1)) (getCell occ s (x - 1) y) Side.south x y
    (fun e => { e with ex := x + 1 }) ⟨x, y + 1, x + 1, y + 1⟩ s

/-- The `// check west edge` block: neighbor `(x-1, y)`, extending neighbor
`(x, y-1)`, extension stretches `ey` to `y+1`, fresh edge `(x,y)-(x,y+1)`. -/
def processWest (occ : Grid) (x y : Int) (s : EState) : EState :=
  processSide (occ (x - 1) y) (getCell occ s x (y - 1)) Side.west x y
    (fun e => { e with ey := y + 1 }) ⟨x, y, x, y + 1⟩ s

/-- One loop body of source `computeEdges`: skip absent cells, otherwise
handle the four sides in source order north, east, south, west. -/
def processCell (occ : Grid) (s : EState) (p : Int × Int) : EState :=
  if occ p.1 p.2 then
    processWest occ p.1 p.2 (processSouth occ p.1 p.2 (processEast occ p.1 p.2 (processNorth occ p.1 p.2 s)))
  else s

/-- The scan order of source `computeEdges`: `x` ascending in the outer
loop over `TILE_X_COUNT = 20`, `y` ascending in the inner loop over
`TILE_Y_COUNT = 20`. -/
def scanPts : List (Int × Int) :=
  (List.range 20).flatMap fun (x : Nat) => (List.range 20).map fun (y : Nat) => ((x : Int), (y : Int))

/-- Source `computeEdges`: `clearEdges()` (drop all edges and reset the id
counter to 1), then the full rectangular scan. -/
def computeEdges (occ : Grid) (s : EState) : EState :=
  scanPts.foldl (processCell occ) { s with edges := [] }

/-- The state before any cell was ever touched. -/
def initState : EState :=
  { cellData := fun _ _ => createCell, edges := [] }

/-! ## Basic facts about the state operations -/

@[simp]
theorem writeSide_edges (x y : Int) (sd : Side) (b : Bool) (i : Nat) (s : EState) :
    (writeSide x y sd b i s).edges = s.edges := rfl

@[simp]
theorem modifyEdge_cellData (i : Nat) (f : Edge → Edge) (s : EState) :
    (modifyEdge i f s).cellData = s.cellData := rfl

@[simp]
theorem appendEdge_cellData (e : Edge) (s : EState) :
    (appendEdge e s).cellData = s.cellData := rfl

@[simp]
theorem appendEdge_edges (e : Edge) (s : EState) :
    (appendEdge e s).edges = s.edges ++ [e] := rfl

theorem writeSide_exist_self (x y : Int) (sd : Side) (b : Bool) (i : Nat) (s : EState) :
    ((writeSide x y sd b i s).cellData x y).existEdges sd = b := by
  simp [writeSide]

theorem writeSide_id_self (x y : Int) (sd : Side) (b : Bool) (i : Nat) (s : EState) :
    ((writeSide x y sd b i s).cellData x y).edgeIds sd = i := by
  simp [writeSide]

theorem writeSide_exist_other_side (x y : Int) (sd sd' : Side) (b : Bool) (i : Nat)
    (s : EState) (h : sd' ≠ sd) :
    ((writeSide x y sd b i s).cellData x y).existEdges sd' = (s.cellData x y).existEdges sd' := by
  simp [writeSide, h]

theorem writeSide_id_other_side (x y : Int) (sd sd' : Side) (b : Bool) (i : Nat)
    (s : EState) (h : sd' ≠ sd) :
    ((writeSide x y sd b i s).cellData x y).edgeIds sd' = (s.cellData x y).edgeIds sd' := by
  simp [writeSide, h]

theorem writeSide_cellData_other (x y a b' : Int) (sd : Side) (b : Bool) (i : Nat)
    (s : EState) (h : ¬(a = x ∧ b' = y)) :
    (writeSide x y sd b i s).cellData a b' = s.cellData a b' := by
  simp [writeSide, h]

@[simp]
theorem length_listModify (f : Edge → Edge) (n : Nat) (l : List Edge) :
    (listModify f n l).length = l.length := by
  induction l generalizing n with
  | nil => simp [listModify]
  | cons e es ih =>
    cases n with
    | zero => simp [listModify]
    | succ m => simp [listModify, ih m]

theorem getElem?_listModify_ne (f : Edge → Edge) {n m : Nat} (l : List Edge) (h : n ≠ m) :
    (listModify f n l)[m]? = l[m]? := by
  induction l generalizing n m with
  | nil => simp [listModify]
  | cons e es ih =>
    cases n with
    | zero => cases m with
      | zero => exact absurd rfl h
      | succ k => simp [listModify]
    | succ n' => cases m with
      | zero => simp [listModify]
      | succ k => simpa [listModify] using ih (fun hc => h (by omega))

theorem getElem?_listModify_self (f : Edge → Edge) (n : Nat) (l : List Edge) :
    (listModify f n l)[n]? = l[n]?.map f := by
  induction l generalizing n with
  | nil => simp [listModify]
  | cons e es ih =>
    cases n with
    | zero => simp [listModify]
    | succ m => simpa [listModify] using ih m

theorem forall_mem_listModify {P : Edge → Prop} (f : Edge → Edge) (n : Nat) (l : List Edge)
    (h : ∀ e ∈ l, P e) (hf : ∀ e, l[n]? = some e → P (f e)) :
    ∀ e ∈ listModify f n l, P e := by
  induction l generalizing n with
  | nil => intro e he; simp [listModify] at he
  | cons a as ih =>
    cases n with
    | zero =>
      intro e he
      rw [listModify] at he
      rcases List.mem_cons.mp he with rfl | hmem
      · exact hf a (by simp)
      · exact h e (List.mem_cons_of_mem _ hmem)
    | succ m =>
      intro e he
      rw [listModify] at he
      rcases List.mem_cons.mp he with rfl | hmem
      · exact h e (List.mem_cons_self _ _)
      · exact ih m (fun e' he' => h e' (List.mem_cons_of_mem _ he'))
          (fun e' he' => hf e' (by simpa using he')) e hmem

/-! ## The scan order -/

/-- Strict lexicographic order on scan positions: the source's
`x`-outer/`y`-inner loop visits positions in this order. -/
def lexLT (p q : Int × Int) : Prop :=
  p.1 < q.1 ∨ (p.1 = q.1 ∧ p.2 < q.2)

theorem lexLT_irrefl (p : Int × Int) : ¬lexLT p p := by
  simp [lexLT]

theorem lexLT_asymm {p q : Int × Int} (h : lexLT p q) : ¬lexLT q p := by
  rcases h with h | ⟨h1, h2⟩ <;> rintro (h' | ⟨h1', h2'⟩) <;> omega

theorem mem_scanPts {p : Int × Int} :
    p ∈ scanPts ↔ 0 ≤ p.1 ∧ p.1 < 20 ∧ 0 ≤ p.2 ∧ p.2 < 20 := by
  obtain ⟨a, b⟩ := p
  constructor
  · intro h
    rw [scanPts, List.mem_flatMap] at h
    obtain ⟨x, hx, h⟩ := h
    rw [List.mem_map] at h
    obtain ⟨y, hy, h⟩ := h
    rw [List.mem_range] at hx
    rw [List.mem_range] at hy
    cases h
    dsimp only
    refine ⟨by omega, by exact_mod_cast hx, by omega, by exact_mod_cast hy⟩
  · rintro ⟨h1, h2, h3, h4⟩
    rw [scanPts, List.mem_flatMap]
    refine ⟨a.toNat, ?_, ?_⟩
    · rw [List.mem_range]; omega
    · rw [List.mem_map]
      refine ⟨b.toNat, by rw [List.mem_range]; omega, ?_⟩
      rw [Prod.mk.injEq]
      omega

theorem scanPts_pairwise : List.Pairwise lexLT scanPts := by
  rw [scanPts, List.pairwise_flatMap]
  constructor
  · intro x _
    rw [List.pairwise_map]
    refine (List.pairwise_lt_range 20).imp ?_
    intro y1 y2 h
    exact Or.inr ⟨rfl, by dsimp only; exact_mod_cast h⟩
  · refine (List.pairwise_lt_range 20).imp ?_
    intro x1 x2 h p hp q hq
    rw [List.mem_map] at hp
    rw [List.mem_map] at hq
    obtain ⟨y1, _, rfl⟩ := hp
    obtain ⟨y2, _, rfl⟩ := hq
    exact Or.inl (by dsimp only [lexLT]; exact_mod_cast h)

/-! ## Effect of one side step on the cell map -/

theorem processSide_cellData_other {a b x y : Int} (c : Bool) (nb : Option CellData)
    (sd : Side) (extendF : Edge → Edge) (newEdge : Edge) (s : EState) (h : ¬(a = x ∧ b = y)) :
    (processSide c nb sd x y extendF newEdge s).cellData a b = s.cellData a b := by
  unfold processSide
  split
  · exact writeSide_cellData_other _ _ _ _ _ _ _ _ h
  · split
    · split
      · rw [modifyEdge_cellData]
        exact writeSide_cellData_other _ _ _ _ _ _ _ _ h
      · rw [writeSide_cellData_other _ _ _ _ _ _ _ _ h, appendEdge_cellData]
    · rw [writeSide_cellData_other _ _ _ _ _ _ _ _ h, appendEdge_cellData]

theorem processSide_exist_self (c : Bool) (nb : Option CellData)
    (sd : Side) (x y : Int) (extendF : Edge → Edge) (newEdge : Edge) (s : EState) :
    ((processSide c nb sd x y extendF newEdge s).cellData x y).existEdges sd = !c := by
  cases c with
  | true =>
    unfold processSide
    rw [if_pos rfl, writeSide_exist_self]
    rfl
  | false =>
    unfold processSide
    rw [if_neg (by simp)]
    split
    · split
      · rw [modifyEdge_cellData, writeSide_exist_self]
        rfl
      · rw [writeSide_exist_self]
        rfl
    · rw [writeSide_exist_self]
      rfl

theorem processSide_id_self_zero (nb : Option CellData)
    (sd : Side) (x y : Int) (extendF : Edge → Edge) (newEdge : Edge) (s : EState) :
    ((processSide true nb sd x y extendF newEdge s).cellData x y).edgeIds sd = 0 := by
  unfold processSide
  rw [if_pos rfl, writeSide_id_self]

theorem processSide_exist_other_side (c : Bool) (nb : Option CellData)
    {sd sd' : Side} (x y : Int) (extendF : Edge → Edge) (newEdge : Edge) (s : EState)
    (h : sd' ≠ sd) :
    ((processSide c nb sd x y extendF newEdge s).cellData x y).existEdges sd' =
      (s.cellData x y).existEdges sd' := by
  unfold processSide
  split
  · exact writeSide_exist_other_side _ _ _ _ _ _ _ h
  · split
    · split
      · rw [modifyEdge_cellData]
        exact writeSide_exist_other_side _ _ _ _ _ _ _ h
      · rw [writeSide_exist_other_side _ _ _ _ _ _ _ h, appendEdge_cellData]
    · rw [writeSide_exist_other_side _ _ _ _ _ _ _ h, appendEdge_cellData]

theorem processSide_id_other_side (c : Bool) (nb : Option CellData)
    {sd sd' : Side} (x y : Int) (extendF : Edge → Edge) (newEdge : Edge) (s : EState)
    (h : sd' ≠ sd) :
    ((processSide c nb sd x y extendF newEdge s).cellData x y).edgeIds sd' =
      (s.cellData x y).edgeIds sd' := by
  unfold processSide
  split
  · exact writeSide_id_other_side _ _ _ _ _ _ _ h
  · split
    · split
      · rw [modifyEdge_cellData]
        exact writeSide_id_other_side _ _ _ _ _ _ _ h
      · rw [writeSide_id_other_side _ _ _ _ _ _ _ h, appendEdge_cellData]
    · rw [writeSide_id_other_side _ _ _ _ _ _ _ h, appendEdge_cellData]

/-! ## The neighbor across each side, and the claimed boundary property -/

/-- The cell immediately across a given side of cell `(x, y)`. -/
def nbr (x y : Int) : Side → Int × Int
  | Side.north => (x, y - 1)
  | Side.east => (x + 1, y)
  | Side.south => (x, y + 1)
  | Side.west => (x - 1, y)

/-- Boundary consistency of one cell's data: each side is flagged iff the
cell across that side is absent, and a non-boundary side stores edge id 0. -/
def sideConsistent (occ : Grid) (x y : Int) (cd : CellData) : Prop :=
  ∀ sd : Side,
    (cd.existEdges sd = true ↔ occ (nbr x y sd).1 (nbr x y sd).2 = false) ∧
    (occ (nbr x y sd).1 (nbr x y sd).2 = true →
      cd.existEdges sd = false ∧ cd.edgeIds sd = 0)

theorem processCell_mk (occ : Grid) (s : EState) (x y : Int) :
    processCell occ s (x, y) =
      if occ x y then
        processWest occ x y (processSouth occ x y (processEast occ x y (processNorth occ x y s)))
      else s := rfl

theorem processCell_cellData_other {a b : Int} (occ : Grid) (s : EState) (p : Int × Int)
    (h : ¬(a = p.1 ∧ b = p.2)) :
    (processCell occ s p).cellData a b = s.cellData a b := by
  obtain ⟨x, y⟩ := p
  rw [processCell_mk]
  split
  · rw [processWest, processSide_cellData_other _ _ _ _ _ _ h,
      processSouth, processSide_cellData_other _ _ _ _ _ _ h,
      processEast, processSide_cellData_other _ _ _ _ _ _ h,
      processNorth, processSide_cellData_other _ _ _ _ _ _ h]
  · rfl

theorem processCell_consistent (occ : Grid) (s : EState) (x y : Int)
    (hocc : occ x y = true) :
    sideConsistent occ x y ((processCell occ s (x, y)).cellData x y) := by
  intro sd
  rw [processCell_mk, if_pos hocc]
  have base : ∀ (c : Bool) (nb : Option CellData) (eF : Edge → Edge) (ne : Edge) (s' : EState),
      (((processSide c nb sd x y eF ne s').cellData x y).existEdges sd = true ↔ c = false) ∧
      (c = true → ((processSide c nb sd x y eF ne s').cellData x y).existEdges sd = false ∧
        ((processSide c nb sd x y eF ne s').cellData x y).edgeIds sd = 0) := by
    intro c nb eF ne s'
    constructor
    · rw [processSide_exist_self]
      cases c <;> simp
    · intro hc
      subst hc
      rw [processSide_exist_self, processSide_id_self_zero]
      exact ⟨rfl, rfl⟩
  cases sd with
  | north =>
    rw [processWest, processSide_exist_other_side _ _ _ _ _ _ _ (by simp),
      processSide_id_other_side _ _ _ _ _ _ _ (by simp),
      processSouth, processSide_exist_other_side _ _ _ _ _ _ _ (by simp),
      processSide_id_other_side _ _ _ _ _ _ _ (by simp),
      processEast, processSide_exist_other_side _ _ _ _ _ _ _ (by simp),
      processSide_id_other_side _ _ _ _ _ _ _ (by simp), processNorth]
    have h1 := base (occ x (y - 1)) (getCell occ s (x - 1) y)
      (fun e => { e with ex := x + 1 }) ⟨x, y, x + 1, y⟩ s
    simp only [nbr]
    constructor
    · rw [h1.1]
    · exact h1.2
  | east =>
    rw [processWest, processSide_exist_other_side _ _ _ _ _ _ _ (by simp),
      processSide_id_other_side _ _ _ _ _ _ _ (by simp),
      processSouth, processSide_exist_other_side _ _ _ _ _ _ _ (by simp),
      processSide_id_other_side _ _ _ _ _ _ _ (by simp), processEast]
    have h1 := base (occ (x + 1) y)
      (getCell occ (processNorth occ x y s) x (y - 1))
      (fun e => { e with ey := y + 1 }) ⟨x + 1, y, x + 1, y + 1⟩ (processNorth occ x y s)
    simp only [nbr]
    constructor
    · rw [h1.1]
    · exact h1.2
  | south =>
    rw [processWest, processSide_exist_other_side _ _ _ _ _ _ _ (by simp),
      processSide_id_other_side _ _ _ _ _ _ _ (by simp), processSouth]
    have h1 := base (occ x (y + 1))
      (getCell occ (processEast occ x y (processNorth occ x y s)) (x - 1) y)
      (fun e => { e with ex := x + 1 }) ⟨x, y + 1, x + 1, y + 1⟩
      (processEast occ x y (processNorth occ x y s))
    simp only [nbr]
    constructor
    · rw [h1.1]
    · exact h1.2
  | west =>
    rw [processWest]
    have h1 := base (occ (x - 1) y)
      (getCell occ (processSouth occ x y (processEast occ x y (processNorth occ x y s))) x (y - 1))
      (fun e => { e with ey := y + 1 }) ⟨x, y, x, y + 1⟩
      (processSouth occ x y (processEast occ x y (processNorth occ x y s)))
    simp only [nbr]
    constructor
    · rw [h1.1]
    · exact h1.2

/-! ## Folding the scan -/

theorem foldl_cellData_not_mem (occ : Grid) {p : Int × Int} :
    ∀ (l : List (Int × Int)) (s : EState), p ∉ l →
      (l.foldl (processCell occ) s).cellData p.1 p.2 = s.cellData p.1 p.2 := by
  intro l
  induction l with
  | nil => intro s _; rfl
  | cons q l ih =>
    intro s hp
    rw [List.foldl_cons, ih _ (fun hmem => hp (List.mem_cons_of_mem _ hmem)),
      processCell_cellData_other _ _ _ ?_]
    intro ⟨h1, h2⟩
    exact hp (by rw [List.mem_cons]; left; rw [Prod.ext_iff]; exact ⟨h1, h2⟩)

theorem foldl_consistent (occ : Grid) {p : Int × Int} :
    ∀ (l : List (Int × Int)) (s : EState), p ∈ l → occ p.1 p.2 = true →
      sideConsistent occ p.1 p.2 ((l.foldl (processCell occ) s).cellData p.1 p.2) := by
  intro l
  induction l with
  | nil => intro s h; cases h
  | cons q l ih =>
    intro s hp hocc
    by_cases hmem : p ∈ l
    · exact ih _ hmem hocc
    · have hq : p = q := by
        rcases List.mem_cons.mp hp with h | h
        · exact h
        · exact absurd h hmem
      subst hq
      obtain ⟨x, y⟩ := p
      rw [List.foldl_cons]
      have := foldl_cellData_not_mem occ l (processCell occ s (x, y)) hmem
      dsimp only at this hocc ⊢
      rw [this]
      exact processCell_consistent occ s x y hocc

/-- **C1.** After `computeEdges`, every occupied cell within the scanned
20×20 extent has each side flagged as a boundary exactly when the cell
across that side is absent, and a non-boundary side stores `false`/`0`. -/
theorem computeEdges_boundary_consistent (occ : Grid) (s : EState) (x y : Int)
    (hx0 : 0 ≤ x) (hx : x < 20) (hy0 : 0 ≤ y) (hy : y < 20)
    (hocc : occ x y = true) :
    sideConsistent occ x y ((computeEdges occ s).cellData x y) := by
  unfold computeEdges
  have hmem : ((x, y) : Int × Int) ∈ scanPts := mem_scanPts.mpr ⟨hx0, hx, hy0, hy⟩
  exact @foldl_consistent occ (x, y) scanPts { s with edges := [] } hmem hocc

/-! ## Evaluation helpers for single side steps -/

theorem getCell_none (occ : Grid) (s : EState) (x y : Int) (h : occ x y = false) :
    getCell occ s x y = none := by
  rw [getCell, h]
  simp

theorem getCell_some (occ : Grid) (s : EState) (x y : Int) (h : occ x y = true) :
    getCell occ s x y = some (s.cellData x y) := by
  rw [getCell, h]
  simp

theorem processSide_clear {c : Bool} (nb : Option CellData) (sd : Side) (x y : Int)
    (extendF : Edge → Edge) (newEdge : Edge) (s : EState) (h : c = true) :
    processSide c nb sd x y extendF newEdge s = writeSide x y sd false 0 s := by
  rw [processSide.eq_def, h]
  simp

theorem processSide_create {c : Bool} {nb : Option CellData} (sd : Side) (x y : Int)
    (extendF : Edge → Edge) (newEdge : Edge) (s : EState)
    (hc : c = false) (hnb : nb = none) :
    processSide c nb sd x y extendF newEdge s =
      writeSide x y sd true (s.edges.length + 1) (appendEdge newEdge s) := by
  rw [processSide.eq_def, hc, hnb]
  simp

theorem processSide_create_of_flat {c : Bool} {nb : Option CellData} {l : CellData}
    (sd : Side) (x y : Int) (extendF : Edge → Edge) (newEdge : Edge) (s : EState)
    (hc : c = false) (hnb : nb = some l) (hl : l.existEdges sd = false) :
    processSide c nb sd x y extendF newEdge s =
      writeSide x y sd true (s.edges.length + 1) (appendEdge newEdge s) := by
  rw [processSide.eq_def, hc, hnb]
  simp [hl]

theorem processSide_extend {c : Bool} {nb : Option CellData} {l : CellData}
    (sd : Side) (x y : Int) (extendF : Edge → Edge) (newEdge : Edge) (s : EState)
    (hc : c = false) (hnb : nb = some l) (hl : l.existEdges sd = true) :
    processSide c nb sd x y extendF newEdge s =
      modifyEdge (l.edgeIds sd) extendF (writeSide x y sd true (l.edgeIds sd) s) := by
  rw [processSide.eq_def, hc, hnb]
  simp [hl]

@[simp]
theorem modifyEdge_edges (i : Nat) (f : Edge → Edge) (s : EState) :
    (modifyEdge i f s).edges = listModify f (i - 1) s.edges := rfl

/-! ## The fold only visits occupied cells -/

theorem processCell_skip (occ : Grid) (s : EState) (p : Int × Int)
    (h : occ p.1 p.2 = false) : processCell occ s p = s := by
  unfold processCell
  rw [h]
  simp

theorem foldl_filter_occupied (occ : Grid) :
    ∀ (l : List (Int × Int)) (s : EState),
      l.foldl (processCell occ) s =
        (l.filter fun p => occ p.1 p.2).foldl (processCell occ) s := by
  intro l
  induction l with
  | nil => intro s; rfl
  | cons q l ih =>
    intro s
    rw [List.foldl_cons]
    cases hq : occ q.1 q.2 with
    | false =>
      rw [processCell_skip occ s q hq, ih]
      have : List.filter (fun p => occ p.1 p.2) (q :: l) =
          List.filter (fun p => occ p.1 p.2) l := by
        rw [List.filter_cons_of_neg (by rw [hq]; simp)]
      rw [this]
    | true =>
      rw [ih]
      have : List.filter (fun p => occ p.1 p.2) (q :: l) =
          q :: List.filter (fun p => occ p.1 p.2) l := by
        rw [List.filter_cons_of_pos (by rw [hq])]
      rw [this, List.foldl_cons]

/-! ## A grid of exactly three horizontally adjacent cells -/

/-- Occupancy configuration holding exactly the cells
`(x0, y0)`, `(x0+1, y0)`, `(x0+2, y0)`. -/
def occ3 (x0 y0 : Int) : Grid := fun a b =>
  decide (b = y0 ∧ (a = x0 ∨ a = x0 + 1 ∨ a = x0 + 2))

theorem occ3_false (x0 y0 a b : Int)
    (h : ¬(b = y0 ∧ (a = x0 ∨ a = x0 + 1 ∨ a = x0 + 2))) : occ3 x0 y0 a b = false := by
  simp only [occ3, decide_eq_false_iff_not]
  exact h

theorem occ3_true (x0 y0 a b : Int)
    (h : b = y0 ∧ (a = x0 ∨ a = x0 + 1 ∨ a = x0 + 2)) : occ3 x0 y0 a b = true := by
  simp only [occ3, decide_eq_true_eq]
  exact h

theorem scanPts_filter_occ3 (x0 y0 : Int)
    (hx0 : 0 ≤ x0) (hx2 : x0 + 2 < 20) (hy0 : 0 ≤ y0) (hy : y0 < 20) :
    scanPts.filter (fun p => occ3 x0 y0 p.1 p.2) =
      [(x0, y0), (x0 + 1, y0), (x0 + 2, y0)] := by
  have inst1 : IsAntisymm (Int × Int) lexLT := ⟨fun a b h h' => absurd h (lexLT_asymm h')⟩
  have inst2 : IsIrrefl (Int × Int) lexLT := ⟨lexLT_irrefl⟩
  have hs1 : List.Pairwise lexLT (scanPts.filter fun p => occ3 x0 y0 p.1 p.2) :=
    scanPts_pairwise.filter _
  have hs2 : List.Pairwise lexLT [(x0, y0), (x0 + 1, y0), (x0 + 2, y0)] := by
    refine List.Pairwise.cons ?_ (List.Pairwise.cons ?_ (List.pairwise_singleton _ _)) <;>
      simp only [List.mem_cons, List.mem_singleton, List.not_mem_nil] <;>
      intro q hq <;>
      rcases hq with rfl | rfl | h <;> first
        | exact Or.inl (by omega)
        | cases h
  have hperm : (scanPts.filter fun p => occ3 x0 y0 p.1 p.2).Perm
      [(x0, y0), (x0 + 1, y0), (x0 + 2, y0)] := by
    refine List.perm_of_nodup_nodup_toFinset_eq (hs1.nodup) (hs2.nodup) ?_
    ext ⟨a, b⟩
    simp only [List.mem_toFinset, List.mem_filter, mem_scanPts, occ3,
      decide_eq_true_eq, List.mem_cons, List.not_mem_nil, or_false, Prod.mk.injEq]
    omega
  exact List.eq_of_perm_of_sorted hperm hs1 hs2

/-! ## Symbolic evaluation of one cell of a horizontal three-cell run -/

theorem processCell_run_left (occ : Grid) (x y : Int) (s : EState)
    (hocc : occ x y = true) (hN : occ x (y - 1) = false) (hE : occ (x + 1) y = true)
    (hS : occ x (y + 1) = false) (hW : occ (x - 1) y = false) :
    processCell occ s (x, y) =
      writeSide x y Side.west true
        ((appendEdge ⟨x, y + 1, x + 1, y + 1⟩
            (writeSide x y Side.east false 0
              (writeSide x y Side.north true (s.edges.length + 1)
                (appendEdge ⟨x, y, x + 1, y⟩ s)))).edges.length + 1)
        (appendEdge ⟨x, y, x, y + 1⟩
          (writeSide x y Side.south true
            ((writeSide x y Side.east false 0
                (writeSide x y Side.north true (s.edges.length + 1)
                  (appendEdge ⟨x, y, x + 1, y⟩ s))).edges.length + 1)
            (appendEdge ⟨x, y + 1, x + 1, y + 1⟩
              (writeSide x y Side.east false 0
                (writeSide x y Side.north true (s.edges.length + 1)
                  (appendEdge ⟨x, y, x + 1, y⟩ s)))))) := by
  rw [processCell_mk, if_pos hocc, processNorth,
    processSide_create Side.north x y _ _ s hN (getCell_none occ s (x - 1) y hW)]
  rw [processEast, processSide_clear _ _ _ _ _ _ _ hE]
  rw [processSouth, processSide_create Side.south x y _ _ _ hS (getCell_none occ _ (x - 1) y hW)]
  rw [processWest, processSide_create Side.west x y _ _ _ hW (getCell_none occ _ x (y - 1) hN)]
  simp only [writeSide_edges, appendEdge_edges]

theorem processCell_run_mid (occ : Grid) (x y : Int) (s : EState) (iN iS : Nat)
    (hocc : occ x y = true) (hN : occ x (y - 1) = false) (hE : occ (x + 1) y = true)
    (hS : occ x (y + 1) = false) (hWocc : occ (x - 1) y = true)
    (hwN : (s.cellData (x - 1) y).existEdges Side.north = true)
    (hwNid : (s.cellData (x - 1) y).edgeIds Side.north = iN)
    (hwS : (s.cellData (x - 1) y).existEdges Side.south = true)
    (hwSid : (s.cellData (x - 1) y).edgeIds Side.south = iS) :
    processCell occ s (x, y) =
      writeSide x y Side.west false 0
        (modifyEdge iS (fun e => { e with ex := x + 1 })
          (writeSide x y Side.south true iS
            (writeSide x y Side.east false 0
              (modifyEdge iN (fun e => { e with ex := x + 1 })
                (writeSide x y Side.north true iN s))))) := by
  have hxx : ¬(x - 1 = x ∧ y = y) := by rintro ⟨h1, h2⟩; omega
  rw [processCell_mk, if_pos hocc, processNorth,
    processSide_extend Side.north x y _ _ s hN (getCell_some occ s (x - 1) y hWocc) hwN,
    hwNid]
  rw [processEast, processSide_clear _ _ _ _ _ _ _ hE]
  have hcd : (writeSide x y Side.east false 0
      (modifyEdge iN (fun e => { e with ex := x + 1 })
        (writeSide x y Side.north true iN s))).cellData (x - 1) y = s.cellData (x - 1) y := by
    rw [writeSide_cellData_other _ _ _ _ _ _ _ _ hxx, modifyEdge_cellData,
      writeSide_cellData_other _ _ _ _ _ _ _ _ hxx]
  rw [processSouth,
    processSide_extend Side.south x y _ _ _ hS
      (by rw [getCell_some occ _ (x - 1) y hWocc, hcd]) hwS]
  rw [hwSid]
  rw [processWest, processSide_clear _ _ _ _ _ _ _ hWocc]

theorem processCell_run_right (occ : Grid) (x y : Int) (s : EState) (iN iS : Nat)
    (hocc : occ x y = true) (hN : occ x (y - 1) = false) (hE : occ (x + 1) y = false)
    (hS : occ x (y + 1) = false) (hWocc : occ (x - 1) y = true)
    (hwN : (s.cellData (x - 1) y).existEdges Side.north = true)
    (hwNid : (s.cellData (x - 1) y).edgeIds Side.north = iN)
    (hwS : (s.cellData (x - 1) y).existEdges Side.south = true)
    (hwSid : (s.cellData (x - 1) y).edgeIds Side.south = iS) :
    processCell occ s (x, y) =
      writeSide x y Side.west false 0
        (modifyEdge iS (fun e => { e with ex := x + 1 })
          (writeSide x y Side.south true iS
            (writeSide x y Side.east true (s.edges.length + 1)
              (appendEdge ⟨x + 1, y, x + 1, y + 1⟩
                (modifyEdge iN (fun e => { e with ex := x + 1 })
                  (writeSide x y Side.north true iN s)))))) := by
  have hxx : ¬(x - 1 = x ∧ y = y) := by rintro ⟨h1, h2⟩; omega
  rw [processCell_mk, if_pos hocc, processNorth,
    processSide_extend Side.north x y _ _ s hN (getCell_some occ s (x - 1) y hWocc) hwN,
    hwNid]
  rw [processEast, processSide_create Side.east x y _ _ _ hE (getCell_none occ _ x (y - 1) hN)]
  have hcd : (writeSide x y Side.east true
      ((modifyEdge iN (fun e => { e with ex := x + 1 })
        (writeSide x y Side.north true iN s)).edges.length + 1)
      (appendEdge ⟨x + 1, y, x + 1, y + 1⟩
        (modifyEdge iN (fun e => { e with ex := x + 1 })
          (writeSide x y Side.north true iN s)))).cellData (x - 1) y =
      s.cellData (x - 1) y := by
    rw [writeSide_cellData_other _ _ _ _ _ _ _ _ hxx, appendEdge_cellData, modifyEdge_cellData,
      writeSide_cellData_other _ _ _ _ _ _ _ _ hxx]
  rw [processSouth,
    processSide_extend Side.south x y _ _ _ hS
      (by rw [getCell_some occ _ (x - 1) y hWocc, hcd]) hwS]
  rw [hwSid]
  rw [processWest, processSide_clear _ _ _ _ _ _ _ hWocc]
  simp only [modifyEdge_edges, writeSide_edges, length_listModify]

theorem computeEdges_occ3_eval (x0 y0 : Int) (s : EState)
    (hx0 : 0 ≤ x0) (hx2 : x0 + 2 < 20) (hy0 : 0 ≤ y0) (hy : y0 < 20) :
    (computeEdges (occ3 x0 y0) s).edges =
      [⟨x0, y0, x0 + 3, y0⟩, ⟨x0, y0 + 1, x0 + 3, y0 + 1⟩,
        ⟨x0, y0, x0, y0 + 1⟩, ⟨x0 + 3, y0, x0 + 3, y0 + 1⟩] ∧
    (((computeEdges (occ3 x0 y0) s).cellData x0 y0).existEdges Side.north = true ∧
      ((computeEdges (occ3 x0 y0) s).cellData x0 y0).edgeIds Side.north = 1) ∧
    (((computeEdges (occ3 x0 y0) s).cellData (x0 + 1) y0).existEdges Side.north = true ∧
      ((computeEdges (occ3 x0 y0) s).cellData (x0 + 1) y0).edgeIds Side.north = 1) ∧
    (((computeEdges (occ3 x0 y0) s).cellData (x0 + 2) y0).existEdges Side.north = true ∧
      ((computeEdges (occ3 x0 y0) s).cellData (x0 + 2) y0).edgeIds Side.north = 1) := by
  have f1 : occ3 x0 y0 x0 y0 = true := occ3_true _ _ _ _ (by omega)
  have f2 : occ3 x0 y0 x0 (y0 - 1) = false := occ3_false _ _ _ _ (by omega)
  have f3 : occ3 x0 y0 (x0 + 1) y0 = true := occ3_true _ _ _ _ (by omega)
  have f4 : occ3 x0 y0 x0 (y0 + 1) = false := occ3_false _ _ _ _ (by omega)
  have f5 : occ3 x0 y0 (x0 - 1) y0 = false := occ3_false _ _ _ _ (by omega)
  have g1 : occ3 x0 y0 (x0 + 1) (y0 - 1) = false := occ3_false _ _ _ _ (by omega)
  have g2 : occ3 x0 y0 (x0 + 1 + 1) y0 = true := occ3_true _ _ _ _ (by omega)
  have g3 : occ3 x0 y0 (x0 + 1) (y0 + 1) = false := occ3_false _ _ _ _ (by omega)
  have g4 : occ3 x0 y0 (x0 + 1 - 1) y0 = true := occ3_true _ _ _ _ (by omega)
  have k0 : occ3 x0 y0 (x0 + 2) y0 = true := occ3_true _ _ _ _ (by omega)
  have k1 : occ3 x0 y0 (x0 + 2) (y0 - 1) = false := occ3_false _ _ _ _ (by omega)
  have k2 : occ3 x0 y0 (x0 + 2 + 1) y0 = false := occ3_false _ _ _ _ (by omega)
  have k3 : occ3 x0 y0 (x0 + 2) (y0 + 1) = false := occ3_false _ _ _ _ (by omega)
  have k4 : occ3 x0 y0 (x0 + 2 - 1) y0 = true := occ3_true _ _ _ _ (by omega)
  have e1 : x0 + 1 - 1 = x0 := by omega
  have e2 : x0 + 2 - 1 = x0 + 1 := by omega
  obtain ⟨s1, hs1⟩ : ∃ t : EState,
      processCell (occ3 x0 y0) { s with edges := [] } (x0, y0) = t := ⟨_, rfl⟩
  obtain ⟨s2, hs2⟩ : ∃ t : EState,
      processCell (occ3 x0 y0) s1 (x0 + 1, y0) = t := ⟨_, rfl⟩
  obtain ⟨s3, hs3⟩ : ∃ t : EState,
      processCell (occ3 x0 y0) s2 (x0 + 2, y0) = t := ⟨_, rfl⟩
  have hrun : computeEdges (occ3 x0 y0) s = s3 := by
    rw [computeEdges, foldl_filter_occupied, scanPts_filter_occ3 x0 y0 hx0 hx2 hy0 hy]
    show processCell (occ3 x0 y0) (processCell (occ3 x0 y0)
      (processCell (occ3 x0 y0) { s with edges := [] } (x0, y0)) (x0 + 1, y0)) (x0 + 2, y0) = s3
    rw [hs1, hs2, hs3]
  -- facts about the first cell's state
  have h1edges : s1.edges =
      [⟨x0, y0, x0 + 1, y0⟩, ⟨x0, y0 + 1, x0 + 1, y0 + 1⟩, ⟨x0, y0, x0, y0 + 1⟩] := by
    rw [← hs1, processCell_run_left (occ3 x0 y0) x0 y0 _ f1 f2 f3 f4 f5]
    simp only [writeSide_edges, appendEdge_edges]
    rfl
  have h1nx : (s1.cellData x0 y0).existEdges Side.north = true := by
    rw [← hs1, processCell_run_left (occ3 x0 y0) x0 y0 _ f1 f2 f3 f4 f5,
      writeSide_exist_other_side _ _ _ _ _ _ _ (by simp), appendEdge_cellData,
      writeSide_exist_other_side _ _ _ _ _ _ _ (by simp), appendEdge_cellData,
      writeSide_exist_other_side _ _ _ _ _ _ _ (by simp), writeSide_exist_self]
  have h1ni : (s1.cellData x0 y0).edgeIds Side.north = 1 := by
    rw [← hs1, processCell_run_left (occ3 x0 y0) x0 y0 _ f1 f2 f3 f4 f5,
      writeSide_id_other_side _ _ _ _ _ _ _ (by simp), appendEdge_cellData,
      writeSide_id_other_side _ _ _ _ _ _ _ (by simp), appendEdge_cellData,
      writeSide_id_other_side _ _ _ _ _ _ _ (by simp), writeSide_id_self]
    rfl
  have h1sx : (s1.cellData x0 y0).existEdges Side.south = true := by
    rw [← hs1, processCell_run_left (occ3 x0 y0) x0 y0 _ f1 f2 f3 f4 f5,
      writeSide_exist_other_side _ _ _ _ _ _ _ (by simp), appendEdge_cellData,
      writeSide_exist_self]
  have h1si : (s1.cellData x0 y0).edgeIds Side.south = 2 := by
    rw [← hs1, processCell_run_left (occ3 x0 y0) x0 y0 _ f1 f2 f3 f4 f5,
      writeSide_id_other_side _ _ _ _ _ _ _ (by simp), appendEdge_cellData,
      writeSide_id_self]
    rfl
  -- the middle cell extends edges 1 and 2
  have hmid := processCell_run_mid (occ3 x0 y0) (x0 + 1) y0 s1 1 2 f3 g1 g2 g3 g4
    (by rw [e1]; exact h1nx) (by rw [e1]; exact h1ni)
    (by rw [e1]; exact h1sx) (by rw [e1]; exact h1si)
  have h2edges : s2.edges =
      [⟨x0, y0, x0 + 1 + 1, y0⟩, ⟨x0, y0 + 1, x0 + 1 + 1, y0 + 1⟩, ⟨x0, y0, x0, y0 + 1⟩] := by
    rw [← hs2, hmid]
    simp only [writeSide_edges, modifyEdge_edges, h1edges]
    rfl
  have h2nx : (s2.cellData (x0 + 1) y0).existEdges Side.north = true := by
    rw [← hs2, hmid,
      writeSide_exist_other_side _ _ _ _ _ _ _ (by simp), modifyEdge_cellData,
      writeSide_exist_other_side _ _ _ _ _ _ _ (by simp),
      writeSide_exist_other_side _ _ _ _ _ _ _ (by simp), modifyEdge_cellData,
      writeSide_exist_self]
  have h2ni : (s2.cellData (x0 + 1) y0).edgeIds Side.north = 1 := by
    rw [← hs2, hmid,
      writeSide_id_other_side _ _ _ _ _ _ _ (by simp), modifyEdge_cellData,
      writeSide_id_other_side _ _ _ _ _ _ _ (by simp),
      writeSide_id_other_side _ _ _ _ _ _ _ (by simp), modifyEdge_cellData,
      writeSide_id_self]
  have h2sx : (s2.cellData (x0 + 1) y0).existEdges Side.south = true := by
    rw [← hs2, hmid,
      writeSide_exist_other_side _ _ _ _ _ _ _ (by simp), modifyEdge_cellData,
      writeSide_exist_self]
  have h2si : (s2.cellData (x0 + 1) y0).edgeIds Side.south = 2 := by
    rw [← hs2, hmid,
      writeSide_id_other_side _ _ _ _ _ _ _ (by simp), modifyEdge_cellData,
      writeSide_id_self]
  have h2keep : s2.cellData x0 y0 = s1.cellData x0 y0 := by
    rw [← hs2]
    exact processCell_cellData_other _ _ _ (by rintro ⟨h, _⟩; omega)
  -- the right cell extends edges 1 and 2 and creates the east edge
  have hright := processCell_run_right (occ3 x0 y0) (x0 + 2) y0 s2 1 2 k0 k1 k2 k3 k4
    (by rw [e2]; exact h2nx) (by rw [e2]; exact h2ni)
    (by rw [e2]; exact h2sx) (by rw [e2]; exact h2si)
  have h3edges : s3.edges =
      [⟨x0, y0, x0 + 2 + 1, y0⟩, ⟨x0, y0 + 1, x0 + 2 + 1, y0 + 1⟩,
        ⟨x0, y0, x0, y0 + 1⟩, ⟨x0 + 2 + 1, y0, x0 + 2 + 1, y0 + 1⟩] := by
    rw [← hs3, hright]
    simp only [writeSide_edges, modifyEdge_edges, appendEdge_edges, h2edges]
    rfl
  have h3nx : (s3.cellData (x0 + 2) y0).existEdges Side.north = true := by
    rw [← hs3, hright,
      writeSide_exist_other_side _ _ _ _ _ _ _ (by simp), modifyEdge_cellData,
      writeSide_exist_other_side _ _ _ _ _ _ _ (by simp),
      writeSide_exist_other_side _ _ _ _ _ _ _ (by simp), appendEdge_cellData,
      modifyEdge_cellData, writeSide_exist_self]
  have h3ni : (s3.cellData (x0 + 2) y0).edgeIds Side.north = 1 := by
    rw [← hs3, hright,
      writeSide_id_other_side _ _ _ _ _ _ _ (by simp), modifyEdge_cellData,
      writeSide_id_other_side _ _ _ _ _ _ _ (by simp),
      writeSide_id_other_side _ _ _ _ _ _ _ (by simp), appendEdge_cellData,
      modifyEdge_cellData, writeSide_id_self]
  have h3keep1 : s3.cellData (x0 + 1) y0 = s2.cellData (x0 + 1) y0 := by
    rw [← hs3]
    exact processCell_cellData_other _ _ _ (by rintro ⟨h, _⟩; omega)
  have h3keep0 : s3.cellData x0 y0 = s1.cellData x0 y0 := by
    rw [← hs3, processCell_cellData_other _ _ _ (by rintro ⟨h, _⟩; omega), h2keep]
  have e3 : x0 + 2 + 1 = x0 + 3 := by omega
  rw [hrun]
  refine ⟨?_, ⟨?_, ?_⟩, ⟨?_, ?_⟩, ⟨?_, ?_⟩⟩
  · rw [h3edges, e3]
  · rw [h3keep0, h1nx]
  · rw [h3keep0, h1ni]
  · rw [h3keep1, h2nx]
  · rw [h3keep1, h2ni]
  · exact h3nx
  · exact h3ni

/-- **C2.** On a grid holding three horizontally adjacent occupied cells
`(x0,y0)`, `(x0+1,y0)`, `(x0+2,y0)` (north neighbors all unoccupied),
`computeEdges` produces one shared north edge: the three cells' north
sides are boundaries carrying the same edge id, that id resolves to the
single edge `(x0,y0)-(x0+3,y0)`, and it is the only edge lying on the
cells' north line — not three unit edges. -/
theorem computeEdges_merges_three_run (x0 y0 : Int) (s : EState)
    (hx0 : 0 ≤ x0) (hx2 : x0 + 2 < 20) (hy0 : 0 ≤ y0) (hy : y0 < 20) :
    (((computeEdges (occ3 x0 y0) s).cellData x0 y0).existEdges Side.north = true ∧
      ((computeEdges (occ3 x0 y0) s).cellData (x0 + 1) y0).existEdges Side.north = true ∧
      ((computeEdges (occ3 x0 y0) s).cellData (x0 + 2) y0).existEdges Side.north = true) ∧
    (((computeEdges (occ3 x0 y0) s).cellData x0 y0).edgeIds Side.north =
        ((computeEdges (occ3 x0 y0) s).cellData (x0 + 1) y0).edgeIds Side.north ∧
      ((computeEdges (occ3 x0 y0) s).cellData (x0 + 1) y0).edgeIds Side.north =
        ((computeEdges (occ3 x0 y0) s).cellData (x0 + 2) y0).edgeIds Side.north) ∧
    ((computeEdges (occ3 x0 y0) s).edges[
        ((computeEdges (occ3 x0 y0) s).cellData x0 y0).edgeIds Side.north - 1]? =
      some ⟨x0, y0, x0 + 3, y0⟩) ∧
    ((computeEdges (occ3 x0 y0) s).edges.filter fun e =>
        decide (e.sy = y0) && decide (e.ey = y0)) = [⟨x0, y0, x0 + 3, y0⟩] := by
  obtain ⟨hedges, ⟨h0x, h0i⟩, ⟨h1x, h1i⟩, ⟨h2x, h2i⟩⟩ :=
    computeEdges_occ3_eval x0 y0 s hx0 hx2 hy0 hy
  refine ⟨⟨h0x, h1x, h2x⟩, ⟨by rw [h0i, h1i], by rw [h1i, h2i]⟩, ?_, ?_⟩
  · rw [h0i, hedges]
    rfl
  · rw [hedges]
    have hne : ¬(y0 + 1 = y0) := by omega
    simp [List.filter, hne]

/-- Closed witness instantiating `computeEdges_merges_three_run` at
`x0 = 4`, `y0 = 9` on the untouched initial state. -/
theorem computeEdges_merges_three_run_witness :
    (((computeEdges (occ3 4 9) initState).cellData 4 9).existEdges Side.north = true ∧
      ((computeEdges (occ3 4 9) initState).cellData (4 + 1) 9).existEdges Side.north = true ∧
      ((computeEdges (occ3 4 9) initState).cellData (4 + 2) 9).existEdges Side.north = true) ∧
    (((computeEdges (occ3 4 9) initState).cellData 4 9).edgeIds Side.north =
        ((computeEdges (occ3 4 9) initState).cellData (4 + 1) 9).edgeIds Side.north ∧
      ((computeEdges (occ3 4 9) initState).cellData (4 + 1) 9).edgeIds Side.north =
        ((computeEdges (occ3 4 9) initState).cellData (4 + 2) 9).edgeIds Side.north) ∧
    ((computeEdges (occ3 4 9) initState).edges[
        ((computeEdges (occ3 4 9) initState).cellData 4 9).edgeIds Side.north - 1]? =
      some ⟨4, 9, 4 + 3, 9⟩) ∧
    ((computeEdges (occ3 4 9) initState).edges.filter fun e =>
        decide (e.sy = 9) && decide (e.ey = 9)) = [⟨4, 9, 4 + 3, 9⟩] :=
  computeEdges_merges_three_run 4 9 initState (by decide) (by decide) (by decide) (by decide)

/-- Closed witness instantiating `computeEdges_boundary_consistent` for the
cell `(4, 9)` of the three-cell grid on the untouched initial state. -/
theorem computeEdges_boundary_consistent_witness :
    sideConsistent (occ3 4 9) 4 9 ((computeEdges (occ3 4 9) initState).cellData 4 9) :=
  computeEdges_boundary_consistent (occ3 4 9) initState 4 9
    (by decide) (by decide) (by decide) (by decide) (by decide)

/-! ## Segment intersection

The source works on JavaScript IEEE doubles; the embedding idealizes them
as exact rationals.  Source `lineIntersect` divides unconditionally: when
the denominator is zero the JS divisions produce non-finite (NaN or ±∞)
`s` and `t`, every comparison of the `[0,1]` guard is then false and the
function returns `null`; the explicit zero test below is the image of
that behavior. -/

def lineIntersect (x0 y0 x1 y1 x2 y2 x3 y3 : ℚ) : Option (ℚ × ℚ) :=
  let sx1 := x1 - x0
  let sy1 := y1 - y0
  let sx2 := x3 - x2
  let sy2 := y3 - y2
  let den := -sx2 * sy1 + sx1 * sy2
  if den = 0 then none
  else
    let s := (-sy1 * (x0 - x2) + sx1 * (y0 - y2)) / den
    let t := (sx2 * (y0 - y2) - sy2 * (x0 - x2)) / den
    if 0 ≤ s ∧ s ≤ 1 ∧ 0 ≤ t ∧ t ≤ 1 then some (x0 + t * sx1, y0 + t * sy1)
    else none

/-- **C6.** `lineIntersect` returns a point iff the parametric solution
exists (nonzero determinant) and both parameters `s`, `t` lie in `[0,1]`
inclusive; a zero determinant (parallel or degenerate segments) always
yields `none` rather than an error or a non-finite point. -/
theorem lineIntersect_some_iff (x0 y0 x1 y1 x2 y2 x3 y3 : ℚ) :
    ((∃ p, lineIntersect x0 y0 x1 y1 x2 y2 x3 y3 = some p) ↔
      (-(x3 - x2) * (y1 - y0) + (x1 - x0) * (y3 - y2) ≠ 0 ∧
        0 ≤ (-(y1 - y0) * (x0 - x2) + (x1 - x0) * (y0 - y2)) /
            (-(x3 - x2) * (y1 - y0) + (x1 - x0) * (y3 - y2)) ∧
        (-(y1 - y0) * (x0 - x2) + (x1 - x0) * (y0 - y2)) /
            (-(x3 - x2) * (y1 - y0) + (x1 - x0) * (y3 - y2)) ≤ 1 ∧
        0 ≤ ((x3 - x2) * (y0 - y2) - (y3 - y2) * (x0 - x2)) /
            (-(x3 - x2) * (y1 - y0) + (x1 - x0) * (y3 - y2)) ∧
        ((x3 - x2) * (y0 - y2) - (y3 - y2) * (x0 - x2)) /
            (-(x3 - x2) * (y1 - y0) + (x1 - x0) * (y3 - y2)) ≤ 1)) ∧
    (-(x3 - x2) * (y1 - y0) + (x1 - x0) * (y3 - y2) = 0 →
      lineIntersect x0 y0 x1 y1 x2 y2 x3 y3 = none) := by
  unfold lineIntersect
  dsimp only
  constructor
  · split_ifs with hden hrange
    · simp only [reduceCtorEq, exists_false, false_iff, not_and]
      intro h1
      exact absurd hden h1
    · constructor
      · intro _
        exact ⟨hden, hrange.1, hrange.2.1, hrange.2.2.1, hrange.2.2.2⟩
      · intro _
        exact ⟨_, rfl⟩
    · simp only [reduceCtorEq, exists_false, false_iff, not_and]
      intro _ h1 h2 h3 h4
      exact hrange ⟨h1, h2, h3, h4⟩
  · intro hden
    rw [if_pos hden]

/-- **C7.** Concrete evaluations of `lineIntersect`: the crossing pair
returns exactly `(5, 0)`, the short horizontal segment misses the distant
vertical one (`t` out of `[0,1]`), and the returned point is
`p0 + t·(p1 - p0)` for the computed parameter `t = 1/2`. -/
theorem lineIntersect_examples :
    lineIntersect 0 0 10 0 5 (-5) 5 5 = some (5, 0) ∧
    lineIntersect 0 0 1 0 5 (-5) 5 5 = none ∧
    ((5 : ℚ) = 0 + (((5 - 5) * (0 - (-5)) - (5 - (-5)) * (0 - 5)) /
        (-(5 - 5) * (0 - 0) + (10 - 0) * (5 - (-5)))) * (10 - 0) ∧
      (0 : ℚ) = 0 + (((5 - 5) * (0 - (-5)) - (5 - (-5)) * (0 - 5)) /
        (-(5 - 5) * (0 - 0) + (10 - 0) * (5 - (-5)))) * (0 - 0)) := by
  refine ⟨?_, ?_, by norm_num, by norm_num⟩
  · unfold lineIntersect
    norm_num
  · unfold lineIntersect
    norm_num

/-! ## Ray generation and clipping

The world-space part of the source works on pixels: grid coordinates are
scaled by `TILE_SIZE = 16`, and the grid is `TILE_X_COUNT = TILE_Y_COUNT
= 20` tiles.  `Math.atan2`, `Math.cos` and `Math.sin` are opaque library
primitives; the embedding abstracts them as an oracle `Trig`, so every
theorem below holds for the actual transcendental functions in
particular. -/

def TILE_SIZE : ℚ := 16
def TILE_X_COUNT : ℚ := 20
def TILE_Y_COUNT : ℚ := 20

/-- Source type `Ray`: origin, current endpoint, and the stored angle. -/
structure Ray where
  sx : ℚ
  sy : ℚ
  ex : ℚ
  ey : ℚ
  angle : ℚ
deriving DecidableEq

/-- The trigonometric primitives used by `getRaysToEdges`, kept abstract.
`atan2 dy dx` takes the arguments in the source's order. -/
structure Trig where
  atan2 : ℚ → ℚ → ℚ
  cos : ℚ → ℚ
  sin : ℚ → ℚ

/-- The angular offset `0.0001` of the source's three-ray fan. -/
def epsAng : ℚ := 1 / 10000

/-- The inner `for (let i = 0; i < 3; i++)` loop of `getRaysToEdges`: for a
fresh endpoint `(px, py)` emit three rays at `base + (i - 1) * 0.0001`,
each with far endpoint `light + (cos ang * 20 * 16 * 1.5, sin ang * 20 *
16 * 1.5)` and the angle stored on the ray. -/
def rayTriple (tr : Trig) (lx ly px py : ℚ) : List Ray :=
  (List.range 3).map fun i =>
    let ang := tr.atan2 (py - ly) (px - lx) + ((i : ℚ) - 1) * epsAng
    { sx := lx, sy := ly,
      ex := lx + tr.cos ang * TILE_X_COUNT * TILE_SIZE * (3 / 2),
      ey := ly + tr.sin ang * TILE_Y_COUNT * TILE_SIZE * (3 / 2),
      angle := ang }

/-- The two world-space (pixel) endpoints of an edge, in source order. -/
def edgeEnds (e : Edge) : List (ℚ × ℚ) :=
  [((e.sx : ℚ) * TILE_SIZE, (e.sy : ℚ) * TILE_SIZE),
    ((e.ex : ℚ) * TILE_SIZE, (e.ey : ℚ) * TILE_SIZE)]

/-- One endpoint visit: skip if already in the `visited` set, else record
it and append its ray triple. -/
def genStep (tr : Trig) (lx ly : ℚ) (acc : List (ℚ × ℚ) × List Ray)
    (p : ℚ × ℚ) : List (ℚ × ℚ) × List Ray :=
  if p ∈ acc.1 then acc
  else (acc.1 ++ [p], acc.2 ++ rayTriple tr lx ly p.1 p.2)

/-- The generation loop of `getRaysToEdges`: both endpoints of every edge,
deduplicated by exact coordinate pair. -/
def genScan (tr : Trig) (lx ly : ℚ) (edges : List Edge) :
    List (ℚ × ℚ) × List Ray :=
  edges.foldl (fun acc e => (edgeEnds e).foldl (genStep tr lx ly) acc) ([], [])

/-- The generated (unclipped) ray list. -/
def genRays (tr : Trig) (lx ly : ℚ) (edges : List Edge) : List Ray :=
  (genScan tr lx ly edges).2

/-- The visited distinct endpoints, in first-visit order. -/
def genPoints (tr : Trig) (lx ly : ℚ) (edges : List Edge) : List (ℚ × ℚ) :=
  (genScan tr lx ly edges).1

/-- One clipping test of a ray against one edge: if the current segment
intersects the scaled edge strictly closer to the light than the current
endpoint (squared distances), shrink the endpoint to the intersection. -/
def clipStep (lx ly : ℚ) (r : Ray) (e : Edge) : Ray :=
  match lineIntersect r.sx r.sy r.ex r.ey
      ((e.sx : ℚ) * TILE_SIZE) ((e.sy : ℚ) * TILE_SIZE)
      ((e.ex : ℚ) * TILE_SIZE) ((e.ey : ℚ) * TILE_SIZE) with
  | some q =>
    if (q.1 - lx) ^ 2 + (q.2 - ly) ^ 2 < (r.ex - lx) ^ 2 + (r.ey - ly) ^ 2 then
      { r with ex := q.1, ey := q.2 }
    else r
  | none => r

/-- The inner clipping loop: one ray against every edge in order. -/
def clipRay (lx ly : ℚ) (edges : List Edge) (r : Ray) : Ray :=
  edges.foldl (clipStep lx ly) r

/-- The sort comparator `(a, b) => a.angle - b.angle`: ascending by the
stored angle field. -/
def angleLE (a b : Ray) : Bool := decide (a.angle ≤ b.angle)

/-- Source `getRaysToEdges`: clear the stored ray list (the `prevRays`
argument is discarded), return empty when the light source is absent,
otherwise generate, clip, and sort by stored angle. -/
def getRaysToEdges (tr : Trig) (light : Option (ℚ × ℚ)) (edges : List Edge)
    (prevRays : List Ray) : List Ray :=
  match light with
  | none => []
  | some l =>
    ((genRays tr l.1 l.2 edges).map (clipRay l.1 l.2 edges)).mergeSort angleLE

/-- **C8.** With an absent light source the visibility computation clears
the stored ray list and returns the empty sequence, whatever the edge set
and previously stored rays were. -/
theorem getRaysToEdges_no_light (tr : Trig) (edges : List Edge) (prevRays : List Ray) :
    getRaysToEdges tr none edges prevRays = [] := rfl

/-! ## Structure of the generated ray list -/

theorem genStep_mem (tr : Trig) (lx ly : ℚ) (acc : List (ℚ × ℚ) × List Ray)
    {p : ℚ × ℚ} (h : p ∈ acc.1) : genStep tr lx ly acc p = acc := by
  unfold genStep
  rw [if_pos h]

theorem genStep_new (tr : Trig) (lx ly : ℚ) (acc : List (ℚ × ℚ) × List Ray)
    {p : ℚ × ℚ} (h : p ∉ acc.1) :
    genStep tr lx ly acc p = (acc.1 ++ [p], acc.2 ++ rayTriple tr lx ly p.1 p.2) := by
  unfold genStep
  rw [if_neg h]

theorem pointsFold_mem (tr : Trig) (lx ly : ℚ) :
    ∀ (pts : List (ℚ × ℚ)) (acc : List (ℚ × ℚ) × List Ray) (q : ℚ × ℚ),
      q ∈ (pts.foldl (genStep tr lx ly) acc).1 ↔ q ∈ acc.1 ∨ q ∈ pts := by
  intro pts
  induction pts with
  | nil => intro acc q; simp
  | cons p pts ih =>
    intro acc q
    rw [List.foldl_cons]
    by_cases hmem : p ∈ acc.1
    · rw [genStep_mem tr lx ly acc hmem, ih]
      constructor
      · rintro (h | h)
        · exact Or.inl h
        · exact Or.inr (List.mem_cons_of_mem _ h)
      · rintro (h | h)
        · exact Or.inl h
        · rcases List.mem_cons.mp h with rfl | h
          · exact Or.inl hmem
          · exact Or.inr h
    · rw [genStep_new tr lx ly acc hmem, ih]
      simp only [List.mem_append, List.mem_singleton, List.mem_cons]
      tauto

theorem pointsFold_invariant (tr : Trig) (lx ly : ℚ) :
    ∀ (pts : List (ℚ × ℚ)) (acc : List (ℚ × ℚ) × List Ray),
      acc.2 = acc.1.flatMap (fun p => rayTriple tr lx ly p.1 p.2) → acc.1.Nodup →
      (pts.foldl (genStep tr lx ly) acc).2 =
        (pts.foldl (genStep tr lx ly) acc).1.flatMap (fun p => rayTriple tr lx ly p.1 p.2) ∧
      (pts.foldl (genStep tr lx ly) acc).1.Nodup := by
  intro pts
  induction pts with
  | nil => intro acc h1 h2; exact ⟨h1, h2⟩
  | cons p pts ih =>
    intro acc h1 h2
    rw [List.foldl_cons]
    by_cases hmem : p ∈ acc.1
    · rw [genStep_mem tr lx ly acc hmem]
      exact ih acc h1 h2
    · rw [genStep_new tr lx ly acc hmem]
      refine ih _ ?_ ?_
      · show acc.2 ++ rayTriple tr lx ly p.1 p.2 =
          (acc.1 ++ [p]).flatMap (fun p => rayTriple tr lx ly p.1 p.2)
        rw [List.flatMap_append, h1]
        rfl
      · show (acc.1 ++ [p]).Nodup
        rw [List.nodup_append]
        exact ⟨h2, List.nodup_singleton _, by simpa using hmem⟩

theorem genScan_spec (tr : Trig) (lx ly : ℚ) (edges : List Edge) :
    genRays tr lx ly edges =
      (genPoints tr lx ly edges).flatMap (fun p => rayTriple tr lx ly p.1 p.2) ∧
    (genPoints tr lx ly edges).Nodup ∧
    (∀ q, q ∈ genPoints tr lx ly edges ↔ q ∈ edges.flatMap edgeEnds) := by
  have main : ∀ (l : List Edge) (acc : List (ℚ × ℚ) × List Ray),
      acc.2 = acc.1.flatMap (fun p => rayTriple tr lx ly p.1 p.2) → acc.1.Nodup →
      ((l.foldl (fun acc e => (edgeEnds e).foldl (genStep tr lx ly) acc) acc).2 =
        (l.foldl (fun acc e => (edgeEnds e).foldl (genStep tr lx ly) acc) acc).1.flatMap
          (fun p => rayTriple tr lx ly p.1 p.2) ∧
       (l.foldl (fun acc e => (edgeEnds e).foldl (genStep tr lx ly) acc) acc).1.Nodup) ∧
      (∀ q, q ∈ (l.foldl (fun acc e => (edgeEnds e).foldl (genStep tr lx ly) acc) acc).1 ↔
        q ∈ acc.1 ∨ q ∈ l.flatMap edgeEnds) := by
    intro l
    induction l with
    | nil =>
      intro acc h1 h2
      exact ⟨⟨h1, h2⟩, fun q => by simp⟩
    | cons e l ih =>
      intro acc h1 h2
      rw [List.foldl_cons]
      obtain ⟨hstep1, hstep2⟩ := pointsFold_invariant tr lx ly (edgeEnds e) acc h1 h2
      obtain ⟨hA, hB⟩ := ih _ hstep1 hstep2
      refine ⟨hA, fun q => ?_⟩
      rw [hB q, pointsFold_mem tr lx ly (edgeEnds e) acc q]
      simp only [List.flatMap_cons, List.mem_append]
      tauto
  obtain ⟨⟨hA, hB⟩, hC⟩ := main edges ([], []) rfl List.nodup_nil
  refine ⟨hA, hB, fun q => ?_⟩
  rw [genPoints, genScan, hC q]
  simp

theorem rayTriple_shape (tr : Trig) (lx ly px py : ℚ) :
    ∀ r ∈ rayTriple tr lx ly px py,
      r.sx = lx ∧ r.sy = ly ∧
      r.ex = lx + tr.cos r.angle * TILE_X_COUNT * TILE_SIZE * (3 / 2) ∧
      r.ey = ly + tr.sin r.angle * TILE_Y_COUNT * TILE_SIZE * (3 / 2) := by
  intro r hr
  rw [rayTriple] at hr
  rw [List.mem_map] at hr
  obtain ⟨i, _, rfl⟩ := hr
  exact ⟨rfl, rfl, rfl, rfl⟩

theorem rayTriple_angles (tr : Trig) (lx ly px py : ℚ) :
    (rayTriple tr lx ly px py).map Ray.angle =
      [tr.atan2 (py - ly) (px - lx) - epsAng, tr.atan2 (py - ly) (px - lx),
        tr.atan2 (py - ly) (px - lx) + epsAng] := by
  rw [rayTriple, show List.range 3 = [0, 1, 2] from rfl]
  simp only [List.map_cons, List.map_nil, List.map_map]
  norm_num [sub_eq_add_neg]

/-- **C4.** With a present light source, generation emits exactly one
three-ray fan per distinct world-space edge endpoint (deduplicated by
exact coordinate pair): the ray list is the concatenation of the triples
of the distinct visited endpoints, whose set is exactly the set of scaled
edge endpoints, so its length is `3 ×` the number of distinct endpoints;
each triple's angles are `base - 0.0001`, `base`, `base + 0.0001` with
`base = atan2` from the light, and every ray starts at the light with far
endpoint `light + (cos angle * 20 * 16 * 1.5, sin angle * 20 * 16 * 1.5)`. -/
theorem genRays_triples (tr : Trig) (lx ly : ℚ) (edges : List Edge) :
    genRays tr lx ly edges =
      (genPoints tr lx ly edges).flatMap (fun p => rayTriple tr lx ly p.1 p.2) ∧
    (genPoints tr lx ly edges).Nodup ∧
    (∀ q, q ∈ genPoints tr lx ly edges ↔ q ∈ edges.flatMap edgeEnds) ∧
    (genRays tr lx ly edges).length = 3 * (edges.flatMap edgeEnds).toFinset.card ∧
    (∀ px py, (rayTriple tr lx ly px py).map Ray.angle =
      [tr.atan2 (py - ly) (px - lx) - epsAng, tr.atan2 (py - ly) (px - lx),
        tr.atan2 (py - ly) (px - lx) + epsAng]) ∧
    (∀ r ∈ genRays tr lx ly edges,
      r.sx = lx ∧ r.sy = ly ∧
      r.ex = lx + tr.cos r.angle * TILE_X_COUNT * TILE_SIZE * (3 / 2) ∧
      r.ey = ly + tr.sin r.angle * TILE_Y_COUNT * TILE_SIZE * (3 / 2)) := by
  obtain ⟨hA, hB, hC⟩ := genScan_spec tr lx ly edges
  refine ⟨hA, hB, hC, ?_, rayTriple_angles tr lx ly, ?_⟩
  · have hlen : ∀ l : List (ℚ × ℚ),
        (l.flatMap fun p => rayTriple tr lx ly p.1 p.2).length = 3 * l.length := by
      intro l
      induction l with
      | nil => rfl
      | cons p l ihl =>
        rw [List.flatMap_cons, List.length_append, ihl, List.length_cons,
          show (rayTriple tr lx ly p.1 p.2).length = 3 from rfl]
        omega
    have hset : (genPoints tr lx ly edges).toFinset = (edges.flatMap edgeEnds).toFinset := by
      ext q
      rw [List.mem_toFinset, List.mem_toFinset]
      exact hC q
    rw [hA, hlen, ← hset, List.toFinset_card_of_nodup hB]
  · intro r hr
    rw [hA] at hr
    rw [List.mem_flatMap] at hr
    obtain ⟨p, _, hp⟩ := hr
    exact rayTriple_shape tr lx ly p.1 p.2 r hp

/-! ## The clipping pass only moves endpoints; the output order -/

theorem clipStep_keeps (lx ly : ℚ) (r : Ray) (e : Edge) :
    (clipStep lx ly r e).sx = r.sx ∧ (clipStep lx ly r e).sy = r.sy ∧
    (clipStep lx ly r e).angle = r.angle := by
  unfold clipStep
  split
  · split
    · exact ⟨rfl, rfl, rfl⟩
    · exact ⟨rfl, rfl, rfl⟩
  · exact ⟨rfl, rfl, rfl⟩

theorem clipRay_keeps (lx ly : ℚ) (edges : List Edge) :
    ∀ r : Ray, (clipRay lx ly edges r).sx = r.sx ∧ (clipRay lx ly edges r).sy = r.sy ∧
      (clipRay lx ly edges r).angle = r.angle := by
  induction edges with
  | nil => intro r; exact ⟨rfl, rfl, rfl⟩
  | cons e es ih =>
    intro r
    have hstep : clipRay lx ly (e :: es) r = clipRay lx ly es (clipStep lx ly r e) := rfl
    rw [hstep]
    obtain ⟨h1, h2, h3⟩ := ih (clipStep lx ly r e)
    obtain ⟨k1, k2, k3⟩ := clipStep_keeps lx ly r e
    exact ⟨h1.trans k1, h2.trans k2, h3.trans k3⟩

/-- **C5.** The clipping pass mutates only a ray's endpoint: origin and the
stored angle keep their generated values; and the returned sequence is a
permutation of the clipped rays that is sorted ascending by the stored
(unclipped) `angle` field. -/
theorem getRaysToEdges_sorted_by_stored_angle (tr : Trig) (lx ly : ℚ)
    (edges : List Edge) (prevRays : List Ray) :
    (∀ r : Ray, (clipRay lx ly edges r).sx = r.sx ∧ (clipRay lx ly edges r).sy = r.sy ∧
      (clipRay lx ly edges r).angle = r.angle) ∧
    (getRaysToEdges tr (some (lx, ly)) edges prevRays).Perm
      ((genRays tr lx ly edges).map (clipRay lx ly edges)) ∧
    List.Pairwise (fun a b : Ray => a.angle ≤ b.angle)
      (getRaysToEdges tr (some (lx, ly)) edges prevRays) := by
  refine ⟨clipRay_keeps lx ly edges, ?_, ?_⟩
  · show (((genRays tr lx ly edges).map (clipRay lx ly edges)).mergeSort angleLE).Perm
      ((genRays tr lx ly edges).map (clipRay lx ly edges))
    exact List.mergeSort_perm _ _
  · show List.Pairwise (fun a b : Ray => a.angle ≤ b.angle)
      (((genRays tr lx ly edges).map (clipRay lx ly edges)).mergeSort angleLE)
    have hsorted := @List.sorted_mergeSort Ray angleLE
      (fun a b c hab hbc => by
        simp only [angleLE, decide_eq_true_eq] at hab hbc ⊢
        exact le_trans hab hbc)
      (fun a b => by
        simp only [angleLE, Bool.or_eq_true, decide_eq_true_eq]
        exact le_total a.angle b.angle)
      ((genRays tr lx ly edges).map (clipRay lx ly edges))
    exact hsorted.imp fun h => by simpa [angleLE] using h

/-! ## Geometry of the clipping pass -/

theorem lineIntersect_param (x0 y0 x1 y1 a b c d p q : ℚ)
    (h : lineIntersect x0 y0 x1 y1 a b c d = some (p, q)) :
    -(c - a) * (y1 - y0) + (x1 - x0) * (d - b) ≠ 0 ∧
    0 ≤ (-(y1 - y0) * (x0 - a) + (x1 - x0) * (y0 - b)) /
        (-(c - a) * (y1 - y0) + (x1 - x0) * (d - b)) ∧
    (-(y1 - y0) * (x0 - a) + (x1 - x0) * (y0 - b)) /
        (-(c - a) * (y1 - y0) + (x1 - x0) * (d - b)) ≤ 1 ∧
    0 ≤ ((c - a) * (y0 - b) - (d - b) * (x0 - a)) /
        (-(c - a) * (y1 - y0) + (x1 - x0) * (d - b)) ∧
    ((c - a) * (y0 - b) - (d - b) * (x0 - a)) /
        (-(c - a) * (y1 - y0) + (x1 - x0) * (d - b)) ≤ 1 ∧
    p = x0 + ((c - a) * (y0 - b) - (d - b) * (x0 - a)) /
        (-(c - a) * (y1 - y0) + (x1 - x0) * (d - b)) * (x1 - x0) ∧
    q = y0 + ((c - a) * (y0 - b) - (d - b) * (x0 - a)) /
        (-(c - a) * (y1 - y0) + (x1 - x0) * (d - b)) * (y1 - y0) := by
  unfold lineIntersect at h
  dsimp only at h
  split_ifs at h with h1 h2
  rw [Option.some.injEq, Prod.mk.injEq] at h
  exact ⟨h1, h2.1, h2.2.1, h2.2.2.1, h2.2.2.2, h.1.symm, h.2.symm⟩

theorem lineIntersect_mk (x0 y0 x1 y1 a b c d : ℚ)
    (hden : -(c - a) * (y1 - y0) + (x1 - x0) * (d - b) ≠ 0)
    (hs0 : 0 ≤ (-(y1 - y0) * (x0 - a) + (x1 - x0) * (y0 - b)) /
        (-(c - a) * (y1 - y0) + (x1 - x0) * (d - b)))
    (hs1 : (-(y1 - y0) * (x0 - a) + (x1 - x0) * (y0 - b)) /
        (-(c - a) * (y1 - y0) + (x1 - x0) * (d - b)) ≤ 1)
    (ht0 : 0 ≤ ((c - a) * (y0 - b) - (d - b) * (x0 - a)) /
        (-(c - a) * (y1 - y0) + (x1 - x0) * (d - b)))
    (ht1 : ((c - a) * (y0 - b) - (d - b) * (x0 - a)) /
        (-(c - a) * (y1 - y0) + (x1 - x0) * (d - b)) ≤ 1) :
    lineIntersect x0 y0 x1 y1 a b c d =
      some (x0 + ((c - a) * (y0 - b) - (d - b) * (x0 - a)) /
          (-(c - a) * (y1 - y0) + (x1 - x0) * (d - b)) * (x1 - x0),
        y0 + ((c - a) * (y0 - b) - (d - b) * (x0 - a)) /
          (-(c - a) * (y1 - y0) + (x1 - x0) * (d - b)) * (y1 - y0)) := by
  unfold lineIntersect
  dsimp only
  rw [if_neg hden, if_pos ⟨hs0, hs1, ht0, ht1⟩]

theorem lineIntersect_sub (lx ly ex0 ey0 u a b c d p q : ℚ)
    (hu0 : 0 ≤ u) (hu1 : u ≤ 1)
    (h : lineIntersect lx ly (lx + u * (ex0 - lx)) (ly + u * (ey0 - ly)) a b c d = some (p, q)) :
    lineIntersect lx ly ex0 ey0 a b c d = some (p, q) ∧
    ∃ t, 0 ≤ t ∧ t ≤ u ∧ p = lx + t * (ex0 - lx) ∧ q = ly + t * (ey0 - ly) := by
  obtain ⟨hden, hs0, hs1, ht0, ht1, hp, hq⟩ :=
    lineIntersect_param lx ly (lx + u * (ex0 - lx)) (ly + u * (ey0 - ly)) a b c d p q h
  have hkey : -(c - a) * (ly + u * (ey0 - ly) - ly) + (lx + u * (ex0 - lx) - lx) * (d - b) =
      u * (-(c - a) * (ey0 - ly) + (ex0 - lx) * (d - b)) := by ring
  have hnum : -(ly + u * (ey0 - ly) - ly) * (lx - a) + (lx + u * (ex0 - lx) - lx) * (ly - b) =
      u * (-(ey0 - ly) * (lx - a) + (ex0 - lx) * (ly - b)) := by ring
  rw [hkey] at hden hs0 hs1 ht0 ht1 hp hq
  rw [hnum] at hs0 hs1
  have hu : u ≠ 0 := fun h0 => hden (by rw [h0, zero_mul])
  have hD0 : -(c - a) * (ey0 - ly) + (ex0 - lx) * (d - b) ≠ 0 :=
    fun h0 => hden (by rw [h0, mul_zero])
  have hs_eq : u * (-(ey0 - ly) * (lx - a) + (ex0 - lx) * (ly - b)) /
      (u * (-(c - a) * (ey0 - ly) + (ex0 - lx) * (d - b))) =
      (-(ey0 - ly) * (lx - a) + (ex0 - lx) * (ly - b)) /
      (-(c - a) * (ey0 - ly) + (ex0 - lx) * (d - b)) :=
    mul_div_mul_left _ _ hu
  have ht0u : ((c - a) * (ly - b) - (d - b) * (lx - a)) /
      (-(c - a) * (ey0 - ly) + (ex0 - lx) * (d - b)) =
      u * (((c - a) * (ly - b) - (d - b) * (lx - a)) /
        (u * (-(c - a) * (ey0 - ly) + (ex0 - lx) * (d - b)))) := by
    rw [← mul_div_assoc, mul_div_mul_left _ _ hu]
  rw [hs_eq] at hs0 hs1
  have ht0' : 0 ≤ ((c - a) * (ly - b) - (d - b) * (lx - a)) /
      (-(c - a) * (ey0 - ly) + (ex0 - lx) * (d - b)) := by
    rw [ht0u]
    exact mul_nonneg hu0 ht0
  have htu : ((c - a) * (ly - b) - (d - b) * (lx - a)) /
      (-(c - a) * (ey0 - ly) + (ex0 - lx) * (d - b)) ≤ u := by
    rw [ht0u]
    calc u * (((c - a) * (ly - b) - (d - b) * (lx - a)) /
        (u * (-(c - a) * (ey0 - ly) + (ex0 - lx) * (d - b)))) ≤ u * 1 :=
          mul_le_mul_of_nonneg_left ht1 hu0
      _ = u := mul_one u
  have hmk := lineIntersect_mk lx ly ex0 ey0 a b c d hD0 hs0 hs1 ht0' (htu.trans hu1)
  have hp2 : p = lx + ((c - a) * (ly - b) - (d - b) * (lx - a)) /
      (-(c - a) * (ey0 - ly) + (ex0 - lx) * (d - b)) * (ex0 - lx) := by
    rw [hp, ht0u]
    ring
  have hq2 : q = ly + ((c - a) * (ly - b) - (d - b) * (lx - a)) /
      (-(c - a) * (ey0 - ly) + (ex0 - lx) * (d - b)) * (ey0 - ly) := by
    rw [hq, ht0u]
    ring
  refine ⟨?_, _, ht0', htu, hp2, hq2⟩
  rw [hmk, Option.some.injEq, Prod.mk.injEq]
  exact ⟨hp2.symm, hq2.symm⟩

theorem lineIntersect_sub_none (lx ly ex0 ey0 u a b c d p q : ℚ)
    (hu0 : 0 < u) (hu1 : u ≤ 1)
    (hnone : lineIntersect lx ly (lx + u * (ex0 - lx)) (ly + u * (ey0 - ly)) a b c d = none)
    (hsome : lineIntersect lx ly ex0 ey0 a b c d = some (p, q)) :
    ∃ t, u < t ∧ t ≤ 1 ∧ p = lx + t * (ex0 - lx) ∧ q = ly + t * (ey0 - ly) := by
  obtain ⟨hden0, hs0, hs1, ht0, ht1, hp, hq⟩ :=
    lineIntersect_param lx ly ex0 ey0 a b c d p q hsome
  rcases lt_or_le u (((c - a) * (ly - b) - (d - b) * (lx - a)) /
      (-(c - a) * (ey0 - ly) + (ex0 - lx) * (d - b))) with hgt | hle
  · exact ⟨_, hgt, ht1, hp, hq⟩
  · exfalso
    have hkey : -(c - a) * (ly + u * (ey0 - ly) - ly) + (lx + u * (ex0 - lx) - lx) * (d - b) =
        u * (-(c - a) * (ey0 - ly) + (ex0 - lx) * (d - b)) := by ring
    have hnum : -(ly + u * (ey0 - ly) - ly) * (lx - a) + (lx + u * (ex0 - lx) - lx) * (ly - b) =
        u * (-(ey0 - ly) * (lx - a) + (ex0 - lx) * (ly - b)) := by ring
    have hu : u ≠ 0 := ne_of_gt hu0
    have htc : ((c - a) * (ly - b) - (d - b) * (lx - a)) /
        (u * (-(c - a) * (ey0 - ly) + (ex0 - lx) * (d - b))) =
        (((c - a) * (ly - b) - (d - b) * (lx - a)) /
          (-(c - a) * (ey0 - ly) + (ex0 - lx) * (d - b))) / u := by
      rw [div_div, mul_comm u (-(c - a) * (ey0 - ly) + (ex0 - lx) * (d - b))]
    have hmk := lineIntersect_mk lx ly (lx + u * (ex0 - lx)) (ly + u * (ey0 - ly)) a b c d
      (by rw [hkey]; exact mul_ne_zero hu hden0)
      (by rw [hkey, hnum, mul_div_mul_left _ _ hu]; exact hs0)
      (by rw [hkey, hnum, mul_div_mul_left _ _ hu]; exact hs1)
      (by rw [hkey, htc]; exact div_nonneg ht0 (le_of_lt hu0))
      (by rw [hkey, htc]; exact (div_le_one hu0).mpr hle)
    rw [hmk] at hnone
    exact Option.noConfusion hnone

theorem distSq_param_mono (lx ly ex0 ey0 w t : ℚ) (hw0 : 0 ≤ w) (hwt : w ≤ t) :
    (lx + w * (ex0 - lx) - lx) ^ 2 + (ly + w * (ey0 - ly) - ly) ^ 2 ≤
      (lx + t * (ex0 - lx) - lx) ^ 2 + (ly + t * (ey0 - ly) - ly) ^ 2 := by
  have h1 : w ^ 2 ≤ t ^ 2 := pow_le_pow_left₀ hw0 hwt 2
  have h2 : w ^ 2 * ((ex0 - lx) ^ 2 + (ey0 - ly) ^ 2) ≤
      t ^ 2 * ((ex0 - lx) ^ 2 + (ey0 - ly) ^ 2) :=
    mul_le_mul_of_nonneg_right h1 (by positivity)
  calc (lx + w * (ex0 - lx) - lx) ^ 2 + (ly + w * (ey0 - ly) - ly) ^ 2 =
      w ^ 2 * ((ex0 - lx) ^ 2 + (ey0 - ly) ^ 2) := by ring
    _ ≤ t ^ 2 * ((ex0 - lx) ^ 2 + (ey0 - ly) ^ 2) := h2
    _ = (lx + t * (ex0 - lx) - lx) ^ 2 + (ly + t * (ey0 - ly) - ly) ^ 2 := by ring

/-- The intersection of the (original, unclipped) ray segment from the
light to `(ex0, ey0)` with one edge, scaled to pixels as in the source. -/
def interOrig (lx ly ex0 ey0 : ℚ) (e : Edge) : Option (ℚ × ℚ) :=
  lineIntersect lx ly ex0 ey0 ((e.sx : ℚ) * TILE_SIZE) ((e.sy : ℚ) * TILE_SIZE)
    ((e.ex : ℚ) * TILE_SIZE) ((e.ey : ℚ) * TILE_SIZE)

theorem clipRay_aux (lx ly ex0 ey0 : ℚ) (edges : List Edge) :
    ∀ (r : Ray) (u : ℚ), r.sx = lx → r.sy = ly → 0 ≤ u → u ≤ 1 →
      r.ex = lx + u * (ex0 - lx) → r.ey = ly + u * (ey0 - ly) →
      ∃ w, 0 ≤ w ∧ w ≤ u ∧
        (clipRay lx ly edges r).ex = lx + w * (ex0 - lx) ∧
        (clipRay lx ly edges r).ey = ly + w * (ey0 - ly) ∧
        (((clipRay lx ly edges r).ex = r.ex ∧ (clipRay lx ly edges r).ey = r.ey) ∨
          ∃ e ∈ edges, interOrig lx ly ex0 ey0 e =
            some ((clipRay lx ly edges r).ex, (clipRay lx ly edges r).ey)) ∧
        ∀ e ∈ edges, ∀ pq : ℚ × ℚ, interOrig lx ly ex0 ey0 e = some pq →
          ((clipRay lx ly edges r).ex - lx) ^ 2 + ((clipRay lx ly edges r).ey - ly) ^ 2 ≤
            (pq.1 - lx) ^ 2 + (pq.2 - ly) ^ 2 := by
  induction edges with
  | nil =>
    intro r u hsx hsy hu0 hu1 hex hey
    exact ⟨u, hu0, le_refl u, hex, hey, Or.inl ⟨rfl, rfl⟩,
      fun e he => absurd he (List.not_mem_nil e)⟩
  | cons e es ih =>
    intro r u hsx hsy hu0 hu1 hex hey
    have hstep : clipRay lx ly (e :: es) r = clipRay lx ly es (clipStep lx ly r e) := rfl
    rcases hI : lineIntersect r.sx r.sy r.ex r.ey ((e.sx : ℚ) * TILE_SIZE)
        ((e.sy : ℚ) * TILE_SIZE) ((e.ex : ℚ) * TILE_SIZE) ((e.ey : ℚ) * TILE_SIZE)
      with _ | pq
    · -- the current segment misses this edge; the ray is unchanged here
      have hr1 : clipStep lx ly r e = r := by
        unfold clipStep
        rw [hI]
      rw [hstep, hr1]
      obtain ⟨w, hw0, hwu, hwex, hwey, hor, hmin⟩ := ih r u hsx hsy hu0 hu1 hex hey
      refine ⟨w, hw0, hwu, hwex, hwey, ?_, ?_⟩
      · rcases hor with h | ⟨e', he', hsome⟩
        · exact Or.inl h
        · exact Or.inr ⟨e', List.mem_cons_of_mem _ he', hsome⟩
      · intro f hf pq0 hpq0
        rcases List.mem_cons.mp hf with rfl | hf'
        · obtain ⟨p0, q0⟩ := pq0
          rcases eq_or_lt_of_le hu0 with hu0' | hu0'
          · have hw : w = 0 := le_antisymm (hu0' ▸ hwu) hw0
            rw [hwex, hwey, hw]
            have hz : (lx + 0 * (ex0 - lx) - lx) ^ 2 + (ly + 0 * (ey0 - ly) - ly) ^ 2 = 0 := by
              ring
            rw [hz]
            positivity
          · rw [hsx, hsy, hex, hey] at hI
            unfold interOrig at hpq0
            obtain ⟨t, htu, ht1, hpt, hqt⟩ :=
              lineIntersect_sub_none lx ly ex0 ey0 u _ _ _ _ p0 q0 hu0' hu1 hI hpq0
            rw [hwex, hwey]
            show _ ≤ ((p0, q0).1 - lx) ^ 2 + ((p0, q0).2 - ly) ^ 2
            rw [show ((p0, q0) : ℚ × ℚ).1 = p0 from rfl, show ((p0, q0) : ℚ × ℚ).2 = q0 from rfl,
              hpt, hqt]
            exact distSq_param_mono lx ly ex0 ey0 w t hw0 (hwu.trans (le_of_lt htu))
        · exact hmin f hf' pq0 hpq0
    · -- the current segment hits this edge
      obtain ⟨p1, q1⟩ := pq
      have hI2 := hI
      rw [hsx, hsy, hex, hey] at hI2
      obtain ⟨hOrig, t, ht0, htu, hpt, hqt⟩ :=
        lineIntersect_sub lx ly ex0 ey0 u _ _ _ _ p1 q1 hu0 hu1 hI2
      by_cases hlt : (p1 - lx) ^ 2 + (q1 - ly) ^ 2 < (r.ex - lx) ^ 2 + (r.ey - ly) ^ 2
      · -- strictly closer: the endpoint shrinks to the intersection
        have hr1 : clipStep lx ly r e = { r with ex := p1, ey := q1 } := by
          unfold clipStep
          rw [hI]
          dsimp only
          rw [if_pos hlt]
        rw [hstep, hr1]
        obtain ⟨w, hw0, hwt, hwex, hwey, hor, hmin⟩ :=
          ih { r with ex := p1, ey := q1 } t hsx hsy ht0 (htu.trans hu1) hpt hqt
        refine ⟨w, hw0, hwt.trans htu, hwex, hwey, ?_, ?_⟩
        · rcases hor with ⟨hfx, hfy⟩ | ⟨e', he', hsome⟩
          · refine Or.inr ⟨e, List.mem_cons_self _ _, ?_⟩
            show lineIntersect lx ly ex0 ey0 _ _ _ _ = _
            rw [hOrig, Option.some.injEq, Prod.mk.injEq]
            exact ⟨(hfx.trans rfl).symm, (hfy.trans rfl).symm⟩
          · exact Or.inr ⟨e', List.mem_cons_of_mem _ he', hsome⟩
        · intro f hf pq0 hpq0
          rcases List.mem_cons.mp hf with rfl | hf'
          · unfold interOrig at hpq0
            have hpq1 : pq0 = (p1, q1) := by
              have := hpq0.symm.trans hOrig
              exact Option.some.injEq .. ▸ this
            rw [hpq1, hwex, hwey,
              show ((p1, q1) : ℚ × ℚ).1 = p1 from rfl, show ((p1, q1) : ℚ × ℚ).2 = q1 from rfl,
              hpt, hqt]
            exact distSq_param_mono lx ly ex0 ey0 w t hw0 hwt
          · exact hmin f hf' pq0 hpq0
      · -- not strictly closer: unchanged here
        have hr1 : clipStep lx ly r e = r := by
          unfold clipStep
          rw [hI]
          dsimp only
          rw [if_neg hlt]
        rw [hstep, hr1]
        obtain ⟨w, hw0, hwu, hwex, hwey, hor, hmin⟩ := ih r u hsx hsy hu0 hu1 hex hey
        refine ⟨w, hw0, hwu, hwex, hwey, ?_, ?_⟩
        · rcases hor with h | ⟨e', he', hsome⟩
          · exact Or.inl h
          · exact Or.inr ⟨e', List.mem_cons_of_mem _ he', hsome⟩
        · intro f hf pq0 hpq0
          rcases List.mem_cons.mp hf with rfl | hf'
          · unfold interOrig at hpq0
            have hpq1 : pq0 = (p1, q1) := by
              have := hpq0.symm.trans hOrig
              exact Option.some.injEq .. ▸ this
            have hray : (r.ex - lx) ^ 2 + (r.ey - ly) ^ 2 ≤ (p1 - lx) ^ 2 + (q1 - ly) ^ 2 :=
              le_of_not_lt hlt
            have hfinal : ((clipRay lx ly es r).ex - lx) ^ 2 +
                ((clipRay lx ly es r).ey - ly) ^ 2 ≤ (r.ex - lx) ^ 2 + (r.ey - ly) ^ 2 := by
              rw [hwex, hwey, hex, hey]
              exact distSq_param_mono lx ly ex0 ey0 w u hw0 hwu
            rw [hpq1, show ((p1, q1) : ℚ × ℚ).1 = p1 from rfl,
              show ((p1, q1) : ℚ × ℚ).2 = q1 from rfl]
            exact hfinal.trans hray
          · exact hmin f hf' pq0 hpq0

theorem param_endpoint_eq (lx ly ex0 ey0 T p0 q0 : ℚ)
    (hT0 : 0 ≤ T) (hT1 : T ≤ 1)
    (hp : p0 = lx + T * (ex0 - lx)) (hq : q0 = ly + T * (ey0 - ly))
    (hmin : (ex0 - lx) ^ 2 + (ey0 - ly) ^ 2 ≤ (p0 - lx) ^ 2 + (q0 - ly) ^ 2) :
    p0 = ex0 ∧ q0 = ey0 := by
  have h1 : (ex0 - lx) ^ 2 + (ey0 - ly) ^ 2 ≤
      T ^ 2 * ((ex0 - lx) ^ 2 + (ey0 - ly) ^ 2) := by
    calc (ex0 - lx) ^ 2 + (ey0 - ly) ^ 2 ≤ (p0 - lx) ^ 2 + (q0 - ly) ^ 2 := hmin
      _ = T ^ 2 * ((ex0 - lx) ^ 2 + (ey0 - ly) ^ 2) := by rw [hp, hq]; ring
  have hT2 : T ^ 2 ≤ 1 := by nlinarith
  have h2 : T ^ 2 * ((ex0 - lx) ^ 2 + (ey0 - ly) ^ 2) ≤
      (ex0 - lx) ^ 2 + (ey0 - ly) ^ 2 := by
    nlinarith [sq_nonneg (ex0 - lx), sq_nonneg (ey0 - ly)]
  have h3 : ((ex0 - lx) ^ 2 + (ey0 - ly) ^ 2) * (T ^ 2 - 1) = 0 := by nlinarith
  rcases mul_eq_zero.mp h3 with hL0 | hT21
  · have hx0 : (ex0 - lx) ^ 2 = 0 ∧ (ey0 - ly) ^ 2 = 0 :=
      (add_eq_zero_iff_of_nonneg (sq_nonneg _) (sq_nonneg _)).mp hL0
    have hx : ex0 - lx = 0 := pow_eq_zero_iff (by norm_num) |>.mp hx0.1
    have hy : ey0 - ly = 0 := pow_eq_zero_iff (by norm_num) |>.mp hx0.2
    constructor
    · rw [hp, hx]
      linarith
    · rw [hq, hy]
      linarith
  · have hfac : (T - 1) * (T + 1) = 0 := by linear_combination hT21
    have hT1e : T = 1 := by
      rcases mul_eq_zero.mp hfac with h | h
      · linarith
      · linarith
    constructor
    · rw [hp, hT1e]
      ring
    · rw [hq, hT1e]
      ring

/-- **C3.** For a ray anchored at the light, the clipping pass ends exactly
at the nearest ray-edge intersection: every original-ray intersection is
at least as far (squared distance from the light) as the final endpoint;
if any edge intersects the ray, the final endpoint is itself such an
intersection point; and if no edge intersects the ray the endpoint is the
original far-field point, unchanged. -/
theorem clipRay_nearest_intersection (lx ly : ℚ) (edges : List Edge) (r : Ray)
    (hsx : r.sx = lx) (hsy : r.sy = ly) :
    ((∀ e ∈ edges, interOrig lx ly r.ex r.ey e = none) →
      (clipRay lx ly edges r).ex = r.ex ∧ (clipRay lx ly edges r).ey = r.ey) ∧
    (∀ e ∈ edges, ∀ pq : ℚ × ℚ, interOrig lx ly r.ex r.ey e = some pq →
      ((clipRay lx ly edges r).ex - lx) ^ 2 + ((clipRay lx ly edges r).ey - ly) ^ 2 ≤
        (pq.1 - lx) ^ 2 + (pq.2 - ly) ^ 2) ∧
    ((∃ e ∈ edges, (interOrig lx ly r.ex r.ey e).isSome = true) →
      ∃ e ∈ edges, interOrig lx ly r.ex r.ey e =
        some ((clipRay lx ly edges r).ex, (clipRay lx ly edges r).ey)) := by
  have hex : r.ex = lx + 1 * (r.ex - lx) := by ring
  have hey : r.ey = ly + 1 * (r.ey - ly) := by ring
  obtain ⟨w, hw0, hw1, hwex, hwey, hor, hmin⟩ :=
    clipRay_aux lx ly r.ex r.ey edges r 1 hsx hsy (by norm_num) (le_refl 1) hex hey
  refine ⟨?_, hmin, ?_⟩
  · intro hall
    rcases hor with h | ⟨e, he, hsome⟩
    · exact h
    · rw [hall e he] at hsome
      exact Option.noConfusion hsome
  · rintro ⟨e, he, hsome⟩
    rcases hor with ⟨hfx, hfy⟩ | hcase
    · rw [Option.isSome_iff_exists] at hsome
      obtain ⟨pq, hpq⟩ := hsome
      obtain ⟨p0, q0⟩ := pq
      refine ⟨e, he, ?_⟩
      obtain ⟨hden, hs0', hs1', hT0, hT1, hp', hq'⟩ :=
        lineIntersect_param lx ly r.ex r.ey _ _ _ _ p0 q0 hpq
      have hd1 := hmin e he (p0, q0) hpq
      rw [hfx, hfy] at hd1
      have hd1' : (r.ex - lx) ^ 2 + (r.ey - ly) ^ 2 ≤
          (p0 - lx) ^ 2 + (q0 - ly) ^ 2 := hd1
      obtain ⟨hpe, hqe⟩ :=
        param_endpoint_eq lx ly r.ex r.ey _ p0 q0 hT0 hT1 hp' hq' hd1'
      rw [hpq, Option.some.injEq, Prod.mk.injEq]
      exact ⟨hpe.trans hfx.symm, hqe.trans hfy.symm⟩
    · exact hcase

/-- Closed witness instantiating `clipRay_nearest_intersection`: a light
at the origin, a single vertical edge at grid `x = 1`, and a horizontal
far-field ray. -/
theorem clipRay_nearest_intersection_witness :
    ((∀ e ∈ [(⟨1, 0, 1, 1⟩ : Edge)], interOrig 0 0 480 0 e = none) →
      (clipRay 0 0 [⟨1, 0, 1, 1⟩] ⟨0, 0, 480, 0, 0⟩).ex = 480 ∧
      (clipRay 0 0 [⟨1, 0, 1, 1⟩] ⟨0, 0, 480, 0, 0⟩).ey = 0) ∧
    (∀ e ∈ [(⟨1, 0, 1, 1⟩ : Edge)], ∀ pq : ℚ × ℚ, interOrig 0 0 480 0 e = some pq →
      ((clipRay 0 0 [⟨1, 0, 1, 1⟩] ⟨0, 0, 480, 0, 0⟩).ex - 0) ^ 2 +
          ((clipRay 0 0 [⟨1, 0, 1, 1⟩] ⟨0, 0, 480, 0, 0⟩).ey - 0) ^ 2 ≤
        (pq.1 - 0) ^ 2 + (pq.2 - 0) ^ 2) ∧
    ((∃ e ∈ [(⟨1, 0, 1, 1⟩ : Edge)], (interOrig 0 0 480 0 e).isSome = true) →
      ∃ e ∈ [(⟨1, 0, 1, 1⟩ : Edge)], interOrig 0 0 480 0 e =
        some ((clipRay 0 0 [⟨1, 0, 1, 1⟩] ⟨0, 0, 480, 0, 0⟩).ex,
          (clipRay 0 0 [⟨1, 0, 1, 1⟩] ⟨0, 0, 480, 0, 0⟩).ey)) :=
  clipRay_nearest_intersection 0 0 [⟨1, 0, 1, 1⟩] ⟨0, 0, 480, 0, 0⟩ rfl rfl

/-! ## Determinism of the scan: the second recompute replays the first -/

theorem CellData_eq : ∀ (c1 c2 : CellData),
    c1.existEdges = c2.existEdges → c1.edgeIds = c2.edgeIds → c1 = c2 := by
  rintro ⟨f1, g1⟩ ⟨f2, g2⟩ h1 h2
  cases h1
  cases h2
  rfl

theorem processSide_getCell_other (occ : Grid) (c : Bool) (nb : Option CellData)
    (sd : Side) (x y a b : Int) (eF : Edge → Edge) (ne : Edge) (s : EState)
    (h : ¬(a = x ∧ b = y)) :
    getCell occ (processSide c nb sd x y eF ne s) a b = getCell occ s a b := by
  unfold getCell
  rw [processSide_cellData_other c nb sd eF ne s h]

theorem processSide_det (c : Bool) (nb : Option CellData) (sd : Side) (x y : Int)
    (eF : Edge → Edge) (ne : Edge) (s t : EState) (hedges : s.edges = t.edges) :
    (processSide c nb sd x y eF ne s).edges = (processSide c nb sd x y eF ne t).edges ∧
    ((processSide c nb sd x y eF ne s).cellData x y).existEdges sd =
      ((processSide c nb sd x y eF ne t).cellData x y).existEdges sd ∧
    ((processSide c nb sd x y eF ne s).cellData x y).edgeIds sd =
      ((processSide c nb sd x y eF ne t).cellData x y).edgeIds sd := by
  unfold processSide
  split
  · simp only [writeSide_edges, writeSide_exist_self, writeSide_id_self, hedges]
    exact ⟨trivial, trivial, trivial⟩
  · split
    · split
      · simp only [modifyEdge_edges, writeSide_edges, modifyEdge_cellData,
          writeSide_exist_self, writeSide_id_self, hedges]
        exact ⟨trivial, trivial, trivial⟩
      · simp only [writeSide_edges, appendEdge_edges, writeSide_exist_self,
          writeSide_id_self, hedges]
        exact ⟨trivial, trivial, trivial⟩
    · simp only [writeSide_edges, appendEdge_edges, writeSide_exist_self,
        writeSide_id_self, hedges]
      exact ⟨trivial, trivial, trivial⟩

theorem processCell_self_det (occ : Grid) (s t : EState) (x y : Int)
    (hocc : occ x y = true)
    (hedges : s.edges = t.edges)
    (hw : getCell occ s (x - 1) y = getCell occ t (x - 1) y)
    (hn : getCell occ s x (y - 1) = getCell occ t x (y - 1)) :
    (processCell occ s (x, y)).edges = (processCell occ t (x, y)).edges ∧
    (processCell occ s (x, y)).cellData x y = (processCell occ t (x, y)).cellData x y := by
  have hxw : ¬(x - 1 = x ∧ y = y) := by rintro ⟨h1, _⟩; omega
  have hxn : ¬(x = x ∧ y - 1 = y) := by rintro ⟨_, h2⟩; omega
  rw [processCell_mk, processCell_mk, if_pos hocc, if_pos hocc]
  -- north step: rewrite both occurrences, then align the neighbor reads
  rw [processNorth, processNorth, hw]
  obtain ⟨e1', nx1', ni1'⟩ := processSide_det (occ x (y - 1)) (getCell occ t (x - 1) y)
    Side.north x y (fun e => { e with ex := x + 1 }) ⟨x, y, x + 1, y⟩ s t hedges
  set s1 := processSide (occ x (y - 1)) (getCell occ t (x - 1) y) Side.north x y
    (fun e => { e with ex := x + 1 }) ⟨x, y, x + 1, y⟩ s with hs1
  set t1 := processSide (occ x (y - 1)) (getCell occ t (x - 1) y) Side.north x y
    (fun e => { e with ex := x + 1 }) ⟨x, y, x + 1, y⟩ t with ht1
  have hw1 : getCell occ s1 (x - 1) y = getCell occ t1 (x - 1) y := by
    rw [hs1, ht1, processSide_getCell_other occ _ _ _ _ _ _ _ _ _ _ hxw,
      processSide_getCell_other occ _ _ _ _ _ _ _ _ _ _ hxw]
    exact hw
  have hn1 : getCell occ s1 x (y - 1) = getCell occ t1 x (y - 1) := by
    rw [hs1, ht1, processSide_getCell_other occ _ _ _ _ _ _ _ _ _ _ hxn,
      processSide_getCell_other occ _ _ _ _ _ _ _ _ _ _ hxn]
    exact hn
  clear_value s1 t1
  clear hs1 ht1
  -- east step
  rw [processEast, processEast, hn1]
  obtain ⟨e2, ex2, ei2⟩ := processSide_det (occ (x + 1) y) (getCell occ t1 x (y - 1))
    Side.east x y (fun e => { e with ey := y + 1 }) ⟨x + 1, y, x + 1, y + 1⟩ s1 t1 e1'
  set s2 := processSide (occ (x + 1) y) (getCell occ t1 x (y - 1)) Side.east x y
    (fun e => { e with ey := y + 1 }) ⟨x + 1, y, x + 1, y + 1⟩ s1 with hs2
  set t2 := processSide (occ (x + 1) y) (getCell occ t1 x (y - 1)) Side.east x y
    (fun e => { e with ey := y + 1 }) ⟨x + 1, y, x + 1, y + 1⟩ t1 with ht2
  have nx2 : (s2.cellData x y).existEdges Side.north = (t2.cellData x y).existEdges Side.north := by
    rw [hs2, ht2, processSide_exist_other_side _ _ _ _ _ _ _ (by simp),
      processSide_exist_other_side _ _ _ _ _ _ _ (by simp)]
    exact nx1'
  have ni2 : (s2.cellData x y).edgeIds Side.north = (t2.cellData x y).edgeIds Side.north := by
    rw [hs2, ht2, processSide_id_other_side _ _ _ _ _ _ _ (by simp),
      processSide_id_other_side _ _ _ _ _ _ _ (by simp)]
    exact ni1'
  have hw2 : getCell occ s2 (x - 1) y = getCell occ t2 (x - 1) y := by
    rw [hs2, ht2, processSide_getCell_other occ _ _ _ _ _ _ _ _ _ _ hxw,
      processSide_getCell_other occ _ _ _ _ _ _ _ _ _ _ hxw]
    exact hw1
  have hn2 : getCell occ s2 x (y - 1) = getCell occ t2 x (y - 1) := by
    rw [hs2, ht2, processSide_getCell_other occ _ _ _ _ _ _ _ _ _ _ hxn,
      processSide_getCell_other occ _ _ _ _ _ _ _ _ _ _ hxn]
    exact hn1
  clear_value s2 t2
  clear hs2 ht2 hw1 hn1 e1' nx1' ni1'
  -- south step
  rw [processSouth, processSouth, hw2]
  obtain ⟨e3, sx3, si3⟩ := processSide_det (occ x (y + 1)) (getCell occ t2 (x - 1) y)
    Side.south x y (fun e => { e with ex := x + 1 }) ⟨x, y + 1, x + 1, y + 1⟩ s2 t2 e2
  set s3 := processSide (occ x (y + 1)) (getCell occ t2 (x - 1) y) Side.south x y
    (fun e => { e with ex := x + 1 }) ⟨x, y + 1, x + 1, y + 1⟩ s2 with hs3
  set t3 := processSide (occ x (y + 1)) (getCell occ t2 (x - 1) y) Side.south x y
    (fun e => { e with ex := x + 1 }) ⟨x, y + 1, x + 1, y + 1⟩ t2 with ht3
  have nx3 : (s3.cellData x y).existEdges Side.north = (t3.cellData x y).existEdges Side.north := by
    rw [hs3, ht3, processSide_exist_other_side _ _ _ _ _ _ _ (by simp),
      processSide_exist_other_side _ _ _ _ _ _ _ (by simp)]
    exact nx2
  have ni3 : (s3.cellData x y).edgeIds Side.north = (t3.cellData x y).edgeIds Side.north := by
    rw [hs3, ht3, processSide_id_other_side _ _ _ _ _ _ _ (by simp),
      processSide_id_other_side _ _ _ _ _ _ _ (by simp)]
    exact ni2
  have ex3 : (s3.cellData x y).existEdges Side.east = (t3.cellData x y).existEdges Side.east := by
    rw [hs3, ht3, processSide_exist_other_side _ _ _ _ _ _ _ (by simp),
      processSide_exist_other_side _ _ _ _ _ _ _ (by simp)]
    exact ex2
  have ei3 : (s3.cellData x y).edgeIds Side.east = (t3.cellData x y).edgeIds Side.east := by
    rw [hs3, ht3, processSide_id_other_side _ _ _ _ _ _ _ (by simp),
      processSide_id_other_side _ _ _ _ _ _ _ (by simp)]
    exact ei2
  have hn3 : getCell occ s3 x (y - 1) = getCell occ t3 x (y - 1) := by
    rw [hs3, ht3, processSide_getCell_other occ _ _ _ _ _ _ _ _ _ _ hxn,
      processSide_getCell_other occ _ _ _ _ _ _ _ _ _ _ hxn]
    exact hn2
  clear_value s3 t3
  clear hs3 ht3 hw2 hn2 e2 ex2 ei2 nx2 ni2
  -- west step
  rw [processWest, processWest, hn3]
  obtain ⟨e4, wx4, wi4⟩ := processSide_det (occ (x - 1) y) (getCell occ t3 x (y - 1))
    Side.west x y (fun e => { e with ey := y + 1 }) ⟨x, y, x, y + 1⟩ s3 t3 e3
  set s4 := processSide (occ (x - 1) y) (getCell occ t3 x (y - 1)) Side.west x y
    (fun e => { e with ey := y + 1 }) ⟨x, y, x, y + 1⟩ s3 with hs4
  set t4 := processSide (occ (x - 1) y) (getCell occ t3 x (y - 1)) Side.west x y
    (fun e => { e with ey := y + 1 }) ⟨x, y, x, y + 1⟩ t3 with ht4
  refine ⟨e4, CellData_eq _ _ ?_ ?_⟩
  · funext sd
    cases sd with
    | north =>
      rw [hs4, ht4, processSide_exist_other_side _ _ _ _ _ _ _ (by simp),
        processSide_exist_other_side _ _ _ _ _ _ _ (by simp)]
      exact nx3
    | east =>
      rw [hs4, ht4, processSide_exist_other_side _ _ _ _ _ _ _ (by simp),
        processSide_exist_other_side _ _ _ _ _ _ _ (by simp)]
      exact ex3
    | south =>
      rw [hs4, ht4, processSide_exist_other_side _ _ _ _ _ _ _ (by simp),
        processSide_exist_other_side _ _ _ _ _ _ _ (by simp)]
      exact sx3
    | west => exact wx4
  · funext sd
    cases sd with
    | north =>
      rw [hs4, ht4, processSide_id_other_side _ _ _ _ _ _ _ (by simp),
        processSide_id_other_side _ _ _ _ _ _ _ (by simp)]
      exact ni3
    | east =>
      rw [hs4, ht4, processSide_id_other_side _ _ _ _ _ _ _ (by simp),
        processSide_id_other_side _ _ _ _ _ _ _ (by simp)]
      exact ei3
    | south =>
      rw [hs4, ht4, processSide_id_other_side _ _ _ _ _ _ _ (by simp),
        processSide_id_other_side _ _ _ _ _ _ _ (by simp)]
      exact si3
    | west => exact wi4

theorem processCell_getCell_other (occ : Grid) (s : EState) (p : Int × Int) (a b : Int)
    (h : ¬(a = p.1 ∧ b = p.2)) :
    getCell occ (processCell occ s p) a b = getCell occ s a b := by
  unfold getCell
  rw [processCell_cellData_other occ s p h]

theorem foldl_bisim (occ : Grid) :
    ∀ (l : List (Int × Int)) (s t : EState),
      List.Pairwise lexLT l →
      s.edges = t.edges →
      (∀ q : Int × Int, q ∉ l → getCell occ s q.1 q.2 = getCell occ t q.1 q.2) →
      (l.foldl (processCell occ) s).edges = (l.foldl (processCell occ) t).edges := by
  intro l
  induction l with
  | nil => intro s t _ hedges _; exact hedges
  | cons p l ih =>
    intro s t hpw hedges hagree
    obtain ⟨hp, hl⟩ := List.pairwise_cons.mp hpw
    have hwmem : ((p.1 - 1, p.2) : Int × Int) ∉ p :: l := by
      intro hmem
      rcases List.mem_cons.mp hmem with h | h
      · have : p.1 - 1 = p.1 := congrArg Prod.fst h
        omega
      · have := hp _ h
        rcases this with h' | ⟨h', _⟩ <;> dsimp only at h' <;> omega
    have hnmem : ((p.1, p.2 - 1) : Int × Int) ∉ p :: l := by
      intro hmem
      rcases List.mem_cons.mp hmem with h | h
      · have : p.2 - 1 = p.2 := congrArg Prod.snd h
        omega
      · have := hp _ h
        rcases this with h' | ⟨h', h''⟩
        · dsimp only at h'
          omega
        · dsimp only at h' h''
          omega
    have hw := hagree _ hwmem
    have hn := hagree _ hnmem
    rw [List.foldl_cons, List.foldl_cons]
    cases hocc : occ p.1 p.2 with
    | false =>
      have hs : processCell occ s p = s := processCell_skip occ s p hocc
      have ht : processCell occ t p = t := processCell_skip occ t p hocc
      rw [hs, ht]
      refine ih s t hl hedges ?_
      intro q hq
      by_cases hqp : q = p
      · subst hqp
        unfold getCell
        rw [hocc]
        simp
      · exact hagree q (by
          intro hmem
          rcases List.mem_cons.mp hmem with h | h
          · exact hqp h
          · exact hq h)
    | true =>
      obtain ⟨x, y⟩ := p
      obtain ⟨hE, hC⟩ := processCell_self_det occ s t x y hocc hedges hw hn
      refine ih _ _ hl hE ?_
      intro q hq
      by_cases hqp : q = (x, y)
      · subst hqp
        unfold getCell
        rw [hC]
      · have hq' : ¬(q.1 = x ∧ q.2 = y) := by
          intro ⟨h1, h2⟩
          exact hqp (Prod.ext h1 h2)
        rw [processCell_getCell_other occ s (x, y) q.1 q.2 hq',
          processCell_getCell_other occ t (x, y) q.1 q.2 hq']
        exact hagree q (by
          intro hmem
          rcases List.mem_cons.mp hmem with h | h
          · exact hqp h
          · exact hq h)

/-- **C9.** `computeEdges` is idempotent: recomputing on an unchanged grid
reproduces the edge table exactly (geometry and ids), because every run
discards all prior edges, restarts ids at 1, and its scan only reads cell
data it has itself already rewritten (or untouched out-of-extent data). -/
theorem computeEdges_idempotent (occ : Grid) (s : EState) :
    (computeEdges occ (computeEdges occ s)).edges = (computeEdges occ s).edges := by
  unfold computeEdges
  refine foldl_bisim occ scanPts _ _ scanPts_pairwise rfl ?_
  intro q hq
  unfold getCell
  have : (scanPts.foldl (processCell occ) { s with edges := [] }).cellData q.1 q.2 =
      ({ s with edges := [] } : EState).cellData q.1 q.2 :=
    foldl_cellData_not_mem occ scanPts { s with edges := [] } hq
  rw [this]

/-! ## Normalization of the produced edges

The invariant below follows the scan: every stored edge is axis-aligned
with positive length, every flagged side of a processed cell points at an
edge whose geometry still covers that cell's side, and no cell's east
edge id coincides with any cell's west edge id (east and west chains are
created independently, so their ids never mix). -/

/-- Axis-aligned with length at least one grid unit: horizontal left to
right, or vertical top to bottom. -/
def edgeOK (e : Edge) : Prop :=
  (e.sy = e.ey ∧ e.sx + 1 ≤ e.ex) ∨ (e.sx = e.ex ∧ e.sy + 1 ≤ e.ey)

/-- What the edge owned by side `sd` of the cell at `(a, b)` must look
like: it lies on that side's grid line, and spans at least across the
cell (the far end can only have grown further along the scan). -/
def sideSpec (a b : Int) : Side → Edge → Prop
  | Side.north, e => e.sy = b ∧ e.ey = b ∧ e.sx ≤ a ∧ a + 1 ≤ e.ex
  | Side.south, e => e.sy = b + 1 ∧ e.ey = b + 1 ∧ e.sx ≤ a ∧ a + 1 ≤ e.ex
  | Side.east, e => e.sx = a + 1 ∧ e.ex = a + 1 ∧ e.sy ≤ b ∧ b + 1 ≤ e.ey
  | Side.west, e => e.sx = a ∧ e.ex = a ∧ e.sy ≤ b ∧ b + 1 ≤ e.ey

/-- One side's bookkeeping of one cell is sound in state `s`. -/
def cellSideOK (occ : Grid) (s : EState) (a b : Int) (sd : Side) : Prop :=
  occ a b = true → (s.cellData a b).existEdges sd = true →
    1 ≤ (s.cellData a b).edgeIds sd ∧
    ∃ e, s.edges[(s.cellData a b).edgeIds sd - 1]? = some e ∧ sideSpec a b sd e

theorem getElem?_lt_length {l : List Edge} {n : Nat} {e : Edge}
    (h : l[n]? = some e) : n < l.length := by
  by_contra hn
  rw [List.getElem?_eq_none (by omega)] at h
  exact Option.noConfusion h

theorem cellSideOK_writeSide_other (occ : Grid) (x y a b' : Int) (sd sd' : Side)
    (b : Bool) (i : Nat) (s : EState) (h : ¬(a = x ∧ b' = y))
    (hok : cellSideOK occ s a b' sd') :
    cellSideOK occ (writeSide x y sd b i s) a b' sd' := by
  unfold cellSideOK at hok ⊢
  rw [writeSide_cellData_other x y a b' sd b i s h, writeSide_edges]
  exact hok

theorem cellSideOK_writeSide_other_side (occ : Grid) (x y : Int) (sd sd' : Side)
    (b : Bool) (i : Nat) (s : EState) (h : sd' ≠ sd)
    (hok : cellSideOK occ s x y sd') :
    cellSideOK occ (writeSide x y sd b i s) x y sd' := by
  unfold cellSideOK at hok ⊢
  rw [writeSide_exist_other_side x y sd sd' b i s h, writeSide_id_other_side x y sd sd' b i s h,
    writeSide_edges]
  exact hok

theorem cellSideOK_writeSide_false (occ : Grid) (x y : Int) (sd : Side) (s : EState) :
    cellSideOK occ (writeSide x y sd false 0 s) x y sd := by
  intro _ hex
  rw [writeSide_exist_self] at hex
  exact Bool.noConfusion hex

theorem cellSideOK_writeSide_true (occ : Grid) (x y : Int) (sd : Side) (i : Nat) (s : EState)
    (hid : 1 ≤ i) (he : ∃ e, s.edges[i - 1]? = some e ∧ sideSpec x y sd e) :
    cellSideOK occ (writeSide x y sd true i s) x y sd := by
  intro _ _
  rw [writeSide_id_self, writeSide_edges]
  exact ⟨hid, he⟩

theorem cellSideOK_appendEdge (occ : Grid) (ne : Edge) (s : EState) (a b : Int) (sd : Side)
    (hok : cellSideOK occ s a b sd) :
    cellSideOK occ (appendEdge ne s) a b sd := by
  intro hocc hex
  rw [appendEdge_cellData] at hex
  obtain ⟨h1, e, he, hsp⟩ := hok hocc hex
  simp only [appendEdge_cellData, appendEdge_edges]
  exact ⟨h1, e, by rw [List.getElem?_append_left (getElem?_lt_length he)]; exact he, hsp⟩

theorem cellSideOK_modifyEdge (occ : Grid) (j : Nat) (f : Edge → Edge) (s : EState)
    (a b : Int) (sd : Side) (hj : 1 ≤ j)
    (hok : cellSideOK occ s a b sd)
    (hf : ∀ e, occ a b = true → (s.cellData a b).existEdges sd = true →
      (s.cellData a b).edgeIds sd = j → s.edges[j - 1]? = some e → sideSpec a b sd e →
      sideSpec a b sd (f e)) :
    cellSideOK occ (modifyEdge j f s) a b sd := by
  intro hocc hex
  rw [modifyEdge_cellData] at hex
  obtain ⟨h1, e, he, hsp⟩ := hok hocc hex
  simp only [modifyEdge_cellData, modifyEdge_edges]
  refine ⟨h1, ?_⟩
  by_cases hij : (s.cellData a b).edgeIds sd = j
  · refine ⟨f e, ?_, ?_⟩
    · rw [hij, getElem?_listModify_self, ← hij, he]
      rfl
    · exact hf e hocc hex hij (by rw [← hij]; exact he) hsp
  · refine ⟨e, ?_, hsp⟩
    rw [getElem?_listModify_ne f s.edges (by omega)]
    exact he

theorem getCell_some_inv (occ : Grid) (s : EState) (a b : Int) (l : CellData)
    (h : getCell occ s a b = some l) : occ a b = true ∧ s.cellData a b = l := by
  unfold getCell at h
  split_ifs at h with ho
  exact ⟨ho, Option.some.inj h⟩

theorem invStep_north (occ : Grid) (P : List (Int × Int)) (x y : Int) (s : EState)
    (hPcomp : ∀ a b : Int, occ a b = true → lexLT (a, b) (x, y) → (a, b) ∈ P)
    (hPlex : ∀ p ∈ P, lexLT p (x, y))
    (hA : ∀ e ∈ s.edges, edgeOK e)
    (hB : ∀ p ∈ P, ∀ sd, cellSideOK occ s p.1 p.2 sd) :
    (∀ e ∈ (processNorth occ x y s).edges, edgeOK e) ∧
    (∀ p ∈ P, ∀ sd, cellSideOK occ (processNorth occ x y s) p.1 p.2 sd) ∧
    cellSideOK occ (processNorth occ x y s) x y Side.north := by
  have hnotP : ∀ p ∈ P, ¬(p.1 = x ∧ p.2 = y) := by
    rintro ⟨a, b⟩ hp ⟨h1, h2⟩
    dsimp only at h1 h2
    subst h1
    subst h2
    exact lexLT_irrefl _ (hPlex _ hp)
  by_cases hN : occ x (y - 1) = true
  · rw [processNorth, processSide_clear _ _ _ _ _ _ _ hN]
    refine ⟨hA, ?_, cellSideOK_writeSide_false occ x y Side.north s⟩
    intro p hp sd
    exact cellSideOK_writeSide_other occ x y p.1 p.2 Side.north sd _ _ s (hnotP p hp) (hB p hp sd)
  · rw [Bool.not_eq_true] at hN
    rcases hgc : getCell occ s (x - 1) y with _ | l
    · rw [processNorth, processSide_create Side.north x y _ _ s hN hgc]
      refine ⟨?_, ?_, ?_⟩
      · intro e he
        rw [writeSide_edges, appendEdge_edges] at he
        rcases List.mem_append.mp he with h | h
        · exact hA e h
        · rw [List.mem_singleton] at h
          subst h
          exact Or.inl ⟨rfl, le_refl _⟩
      · intro p hp sd
        exact cellSideOK_writeSide_other occ x y p.1 p.2 Side.north sd _ _ _ (hnotP p hp)
          (cellSideOK_appendEdge occ _ s p.1 p.2 sd (hB p hp sd))
      · refine cellSideOK_writeSide_true occ x y Side.north _ _ (by omega) ?_
        refine ⟨⟨x, y, x + 1, y⟩, ?_, ?_⟩
        · rw [appendEdge_edges, Nat.add_sub_cancel, List.getElem?_concat_length]
        · exact ⟨rfl, rfl, le_refl _, le_refl _⟩
    · obtain ⟨hoccL, hcdL⟩ := getCell_some_inv occ s (x - 1) y l hgc
      have hmemL : ((x - 1, y) : Int × Int) ∈ P :=
        hPcomp (x - 1) y hoccL (Or.inl (by omega))
      by_cases hl : l.existEdges Side.north = true
      · -- reuse the left neighbor's north edge and stretch it to x + 1
        rw [processNorth, processSide_extend Side.north x y _ _ s hN hgc hl]
        obtain ⟨hi1, eN, heN, hspN⟩ := hB _ hmemL Side.north hoccL (by rw [hcdL]; exact hl)
        obtain ⟨hy1, hy2, hx1, hx2⟩ := hspN
        rw [hcdL] at heN hi1
        dsimp only at hy1 hy2 hx1 hx2
        refine ⟨?_, ?_, ?_⟩
        · intro e he
          rw [modifyEdge_edges, writeSide_edges] at he
          refine forall_mem_listModify _ _ s.edges hA ?_ e he
          intro e' he'
          rw [heN] at he'
          obtain rfl := Option.some.inj he'
          refine Or.inl ⟨?_, ?_⟩
          · show eN.sy = eN.ey
            omega
          · show eN.sx + 1 ≤ x + 1
            omega
        · intro p hp sd
          refine cellSideOK_modifyEdge occ _ _ _ p.1 p.2 sd hi1
            (cellSideOK_writeSide_other occ x y p.1 p.2 Side.north sd _ _ s (hnotP p hp)
              (hB p hp sd)) ?_
          intro e hoccP hexP hidP heP hspP
          rw [writeSide_edges] at heP
          rw [writeSide_cellData_other x y p.1 p.2 Side.north _ _ s (hnotP p hp)] at hexP hidP
          rw [heN] at heP
          obtain rfl := Option.some.inj heP
          have hplex := hPlex p hp
          dsimp only [lexLT] at hplex
          cases sd with
          | north =>
            obtain ⟨k1, k2, k3, k4⟩ := hspP
            refine ⟨k1, k2, k3, ?_⟩
            show p.1 + 1 ≤ x + 1
            rcases hplex with h | ⟨h, _⟩ <;> omega
          | south =>
            obtain ⟨k1, k2, k3, k4⟩ := hspP
            refine ⟨k1, k2, k3, ?_⟩
            show p.1 + 1 ≤ x + 1
            rcases hplex with h | ⟨h, _⟩ <;> omega
          | east =>
            obtain ⟨k1, k2, k3, k4⟩ := hspP
            exact absurd k4 (by omega)
          | west =>
            obtain ⟨k1, k2, k3, k4⟩ := hspP
            exact absurd k4 (by omega)
        · intro _ _
          rw [modifyEdge_cellData, writeSide_id_self]
          refine ⟨hi1, ?_⟩
          rw [modifyEdge_edges, writeSide_edges, getElem?_listModify_self, heN]
          refine ⟨_, rfl, ?_⟩
          refine ⟨hy1, hy2, ?_, ?_⟩
          · show eN.sx ≤ x
            omega
          · show (x : Int) + 1 ≤ x + 1
            exact le_refl _
      · rw [Bool.not_eq_true] at hl
        rw [processNorth, processSide_create_of_flat Side.north x y _ _ s hN hgc hl]
        refine ⟨?_, ?_, ?_⟩
        · intro e he
          rw [writeSide_edges, appendEdge_edges] at he
          rcases List.mem_append.mp he with h | h
          · exact hA e h
          · rw [List.mem_singleton] at h
            subst h
            exact Or.inl ⟨rfl, le_refl _⟩
        · intro p hp sd
          exact cellSideOK_writeSide_other occ x y p.1 p.2 Side.north sd _ _ _ (hnotP p hp)
            (cellSideOK_appendEdge occ _ s p.1 p.2 sd (hB p hp sd))
        · refine cellSideOK_writeSide_true occ x y Side.north _ _ (by omega) ?_
          refine ⟨⟨x, y, x + 1, y⟩, ?_, ?_⟩
          · rw [appendEdge_edges, Nat.add_sub_cancel, List.getElem?_concat_length]
          · exact ⟨rfl, rfl, le_refl _, le_refl _⟩

/-- Edge-id disjointness across orientations: the east edge of `(px, py)`
and the west edge of `(qx, qy)` are never the same table entry. -/
def crossOK (occ : Grid) (s : EState) (px py qx qy : Int) : Prop :=
  occ px py = true → occ qx qy = true →
  (s.cellData px py).existEdges Side.east = true →
  (s.cellData qx qy).existEdges Side.west = true →
  (s.cellData px py).edgeIds Side.east ≠ (s.cellData qx qy).edgeIds Side.west

theorem invStep_east (occ : Grid) (P : List (Int × Int)) (x y : Int) (s : EState)
    (hPcomp : ∀ a b : Int, occ a b = true → lexLT (a, b) (x, y) → (a, b) ∈ P)
    (hPlex : ∀ p ∈ P, lexLT p (x, y))
    (hA : ∀ e ∈ s.edges, edgeOK e)
    (hB : ∀ p ∈ P, ∀ sd, cellSideOK occ s p.1 p.2 sd)
    (hC : ∀ p ∈ P, ∀ q ∈ P, crossOK occ s p.1 p.2 q.1 q.2)
    (hN : cellSideOK occ s x y Side.north) :
    (∀ e ∈ (processEast occ x y s).edges, edgeOK e) ∧
    (∀ p ∈ P, ∀ sd, cellSideOK occ (processEast occ x y s) p.1 p.2 sd) ∧
    cellSideOK occ (processEast occ x y s) x y Side.north ∧
    cellSideOK occ (processEast occ x y s) x y Side.east ∧
    (∀ q ∈ P, crossOK occ (processEast occ x y s) x y q.1 q.2) := by
  have hnotP : ∀ p ∈ P, ¬(p.1 = x ∧ p.2 = y) := by
    rintro ⟨a, b⟩ hp ⟨h1, h2⟩
    dsimp only at h1 h2
    subst h1
    subst h2
    exact lexLT_irrefl _ (hPlex _ hp)
  by_cases hE : occ (x + 1) y = true
  · rw [processEast, processSide_clear _ _ _ _ _ _ _ hE]
    refine ⟨hA, ?_, ?_, cellSideOK_writeSide_false occ x y Side.east s, ?_⟩
    · intro p hp sd
      exact cellSideOK_writeSide_other occ x y p.1 p.2 Side.east sd _ _ s (hnotP p hp) (hB p hp sd)
    · exact cellSideOK_writeSide_other_side occ x y Side.east Side.north _ _ s (by decide) hN
    · intro q hq _ _ hex
      rw [writeSide_exist_self] at hex
      exact Bool.noConfusion hex
  · rw [Bool.not_eq_true] at hE
    have createCase : ∀ hmk : processEast occ x y s =
        writeSide x y Side.east true (s.edges.length + 1)
          (appendEdge ⟨x + 1, y, x + 1, y + 1⟩ s),
        (∀ e ∈ (processEast occ x y s).edges, edgeOK e) ∧
        (∀ p ∈ P, ∀ sd, cellSideOK occ (processEast occ x y s) p.1 p.2 sd) ∧
        cellSideOK occ (processEast occ x y s) x y Side.north ∧
        cellSideOK occ (processEast occ x y s) x y Side.east ∧
        (∀ q ∈ P, crossOK occ (processEast occ x y s) x y q.1 q.2) := by
      intro hmk
      rw [hmk]
      refine ⟨?_, ?_, ?_, ?_, ?_⟩
      · intro e he
        rw [writeSide_edges, appendEdge_edges] at he
        rcases List.mem_append.mp he with h | h
        · exact hA e h
        · rw [List.mem_singleton] at h
          subst h
          exact Or.inr ⟨rfl, le_refl _⟩
      · intro p hp sd
        exact cellSideOK_writeSide_other occ x y p.1 p.2 Side.east sd _ _ _ (hnotP p hp)
          (cellSideOK_appendEdge occ _ s p.1 p.2 sd (hB p hp sd))
      · refine cellSideOK_writeSide_other_side occ x y Side.east Side.north _ _ _ (by decide) ?_
        exact cellSideOK_appendEdge occ _ s x y Side.north hN
      · refine cellSideOK_writeSide_true occ x y Side.east _ _ (by omega) ?_
        refine ⟨⟨x + 1, y, x + 1, y + 1⟩, ?_, ?_⟩
        · rw [appendEdge_edges, Nat.add_sub_cancel, List.getElem?_concat_length]
        · exact ⟨rfl, rfl, le_refl _, le_refl _⟩
      · intro q hq _ hoccQ hex hwx
        rw [writeSide_id_self]
        rw [writeSide_cellData_other x y q.1 q.2 Side.east _ _ _ (hnotP q hq),
          appendEdge_cellData] at hwx ⊢
        obtain ⟨h1, e, he, _⟩ := hB q hq Side.west hoccQ hwx
        have := getElem?_lt_length he
        omega
    rcases hgc : getCell occ s x (y - 1) with _ | t
    · exact createCase (by rw [processEast, processSide_create Side.east x y _ _ s hE hgc])
    · obtain ⟨hoccT, hcdT⟩ := getCell_some_inv occ s x (y - 1) t hgc
      have hmemT : ((x, y - 1) : Int × Int) ∈ P :=
        hPcomp x (y - 1) hoccT (Or.inr ⟨rfl, by omega⟩)
      by_cases ht : t.existEdges Side.east = true
      · -- reuse the top neighbor's east edge and stretch it to y + 1
        rw [processEast, processSide_extend Side.east x y _ _ s hE hgc ht]
        obtain ⟨hi1, eE, heE, hspE⟩ := hB _ hmemT Side.east hoccT (by rw [hcdT]; exact ht)
        obtain ⟨kE1, kE2, kE3, kE4⟩ := hspE
        rw [hcdT] at heE hi1
        dsimp only at kE1 kE2 kE3 kE4
        refine ⟨?_, ?_, ?_, ?_, ?_⟩
        · intro e he
          rw [modifyEdge_edges, writeSide_edges] at he
          refine forall_mem_listModify _ _ s.edges hA ?_ e he
          intro e' he'
          rw [heE] at he'
          obtain rfl := Option.some.inj he'
          refine Or.inr ⟨?_, ?_⟩
          · show eE.sx = eE.ex
            omega
          · show eE.sy + 1 ≤ y + 1
            omega
        · intro p hp sd
          refine cellSideOK_modifyEdge occ _ _ _ p.1 p.2 sd hi1
            (cellSideOK_writeSide_other occ x y p.1 p.2 Side.east sd _ _ s (hnotP p hp)
              (hB p hp sd)) ?_
          intro e hoccP hexP hidP heP hspP
          rw [writeSide_edges] at heP
          rw [heE] at heP
          obtain rfl := Option.some.inj heP
          have hplex := hPlex p hp
          dsimp only [lexLT] at hplex
          cases sd with
          | north =>
            obtain ⟨k1, k2, k3, k4⟩ := hspP
            exact absurd k1 (by omega)
          | south =>
            obtain ⟨k1, k2, k3, k4⟩ := hspP
            exact absurd k1 (by omega)
          | east =>
            obtain ⟨k1, k2, k3, k4⟩ := hspP
            refine ⟨k1, k2, k3, ?_⟩
            show p.2 + 1 ≤ y + 1
            rcases hplex with h | ⟨h, h2⟩ <;> omega
          | west =>
            obtain ⟨k1, k2, k3, k4⟩ := hspP
            refine absurd k1 ?_
            rcases hplex with h | ⟨h, h2⟩ <;> omega
        · refine cellSideOK_modifyEdge occ _ _ _ x y Side.north hi1
            (cellSideOK_writeSide_other_side occ x y Side.east Side.north _ _ s (by decide) hN) ?_
          intro e _ _ _ heP hspP
          rw [writeSide_edges] at heP
          rw [heE] at heP
          obtain rfl := Option.some.inj heP
          obtain ⟨k1, k2, k3, k4⟩ := hspP
          exact absurd k1 (by omega)
        · intro _ _
          rw [modifyEdge_cellData, writeSide_id_self]
          refine ⟨hi1, ?_⟩
          rw [modifyEdge_edges, writeSide_edges, getElem?_listModify_self, heE]
          refine ⟨_, rfl, ?_⟩
          refine ⟨?_, ?_, ?_, ?_⟩
          · show eE.sx = x + 1
            omega
          · show eE.ex = x + 1
            omega
          · show eE.sy ≤ y
            omega
          · show (y : Int) + 1 ≤ y + 1
            exact le_refl _
        · intro q hq hoccX hoccQ hex hwx
          rw [modifyEdge_cellData] at hwx
          rw [modifyEdge_cellData, writeSide_id_self]
          rw [writeSide_cellData_other x y q.1 q.2 Side.east _ _ s (hnotP q hq)] at hwx ⊢
          have := hC _ hmemT q hq hoccT hoccQ (by rw [hcdT]; exact ht) hwx
          rw [hcdT] at this
          exact this
      · rw [Bool.not_eq_true] at ht
        exact createCase (by rw [processEast, processSide_create_of_flat Side.east x y _ _ s hE hgc ht])

theorem crossOK_congr (occ : Grid) (s s' : EState) (px py qx qy : Int)
    (he : (s'.cellData px py).existEdges Side.east = (s.cellData px py).existEdges Side.east)
    (hi : (s'.cellData px py).edgeIds Side.east = (s.cellData px py).edgeIds Side.east)
    (hw : (s'.cellData qx qy).existEdges Side.west = (s.cellData qx qy).existEdges Side.west)
    (hj : (s'.cellData qx qy).edgeIds Side.west = (s.cellData qx qy).edgeIds Side.west)
    (h : crossOK occ s px py qx qy) : crossOK occ s' px py qx qy := by
  intro h1 h2 h3 h4
  rw [he] at h3
  rw [hw] at h4
  rw [hi, hj]
  exact h h1 h2 h3 h4

theorem invStep_south (occ : Grid) (P : List (Int × Int)) (x y : Int) (s : EState)
    (hPcomp : ∀ a b : Int, occ a b = true → lexLT (a, b) (x, y) → (a, b) ∈ P)
    (hPlex : ∀ p ∈ P, lexLT p (x, y))
    (hA : ∀ e ∈ s.edges, edgeOK e)
    (hB : ∀ p ∈ P, ∀ sd, cellSideOK occ s p.1 p.2 sd)
    (hN : cellSideOK occ s x y Side.north)
    (hE : cellSideOK occ s x y Side.east) :
    (∀ e ∈ (processSouth occ x y s).edges, edgeOK e) ∧
    (∀ p ∈ P, ∀ sd, cellSideOK occ (processSouth occ x y s) p.1 p.2 sd) ∧
    cellSideOK occ (processSouth occ x y s) x y Side.north ∧
    cellSideOK occ (processSouth occ x y s) x y Side.east ∧
    cellSideOK occ (processSouth occ x y s) x y Side.south := by
  have hnotP : ∀ p ∈ P, ¬(p.1 = x ∧ p.2 = y) := by
    rintro ⟨a, b⟩ hp ⟨h1, h2⟩
    dsimp only at h1 h2
    subst h1
    subst h2
    exact lexLT_irrefl _ (hPlex _ hp)
  by_cases hS : occ x (y + 1) = true
  · rw [processSouth, processSide_clear _ _ _ _ _ _ _ hS]
    refine ⟨hA, ?_, ?_, ?_, cellSideOK_writeSide_false occ x y Side.south s⟩
    · intro p hp sd
      exact cellSideOK_writeSide_other occ x y p.1 p.2 Side.south sd _ _ s (hnotP p hp) (hB p hp sd)
    · exact cellSideOK_writeSide_other_side occ x y Side.south Side.north _ _ s (by decide) hN
    · exact cellSideOK_writeSide_other_side occ x y Side.south Side.east _ _ s (by decide) hE
  · rw [Bool.not_eq_true] at hS
    have createCase : ∀ hmk : processSouth occ x y s =
        writeSide x y Side.south true (s.edges.length + 1)
          (appendEdge ⟨x, y + 1, x + 1, y + 1⟩ s),
        (∀ e ∈ (processSouth occ x y s).edges, edgeOK e) ∧
        (∀ p ∈ P, ∀ sd, cellSideOK occ (processSouth occ x y s) p.1 p.2 sd) ∧
        cellSideOK occ (processSouth occ x y s) x y Side.north ∧
        cellSideOK occ (processSouth occ x y s) x y Side.east ∧
        cellSideOK occ (processSouth occ x y s) x y Side.south := by
      intro hmk
      rw [hmk]
      refine ⟨?_, ?_, ?_, ?_, ?_⟩
      · intro e he
        rw [writeSide_edges, appendEdge_edges] at he
        rcases List.mem_append.mp he with h | h
        · exact hA e h
        · rw [List.mem_singleton] at h
          subst h
          exact Or.inl ⟨rfl, le_refl _⟩
      · intro p hp sd
        exact cellSideOK_writeSide_other occ x y p.1 p.2 Side.south sd _ _ _ (hnotP p hp)
          (cellSideOK_appendEdge occ _ s p.1 p.2 sd (hB p hp sd))
      · refine cellSideOK_writeSide_other_side occ x y Side.south Side.north _ _ _ (by decide) ?_
        exact cellSideOK_appendEdge occ _ s x y Side.north hN
      · refine cellSideOK_writeSide_other_side occ x y Side.south Side.east _ _ _ (by decide) ?_
        exact cellSideOK_appendEdge occ _ s x y Side.east hE
      · refine cellSideOK_writeSide_true occ x y Side.south _ _ (by omega) ?_
        refine ⟨⟨x, y + 1, x + 1, y + 1⟩, ?_, ?_⟩
        · rw [appendEdge_edges, Nat.add_sub_cancel, List.getElem?_concat_length]
        · exact ⟨rfl, rfl, le_refl _, le_refl _⟩
    rcases hgc : getCell occ s (x - 1) y with _ | l
    · exact createCase (by rw [processSouth, processSide_create Side.south x y _ _ s hS hgc])
    · obtain ⟨hoccL, hcdL⟩ := getCell_some_inv occ s (x - 1) y l hgc
      have hmemL : ((x - 1, y) : Int × Int) ∈ P :=
        hPcomp (x - 1) y hoccL (Or.inl (by omega))
      by_cases hl : l.existEdges Side.south = true
      · -- reuse the left neighbor's south edge and stretch it to x + 1
        rw [processSouth, processSide_extend Side.south x y _ _ s hS hgc hl]
        obtain ⟨hi1, eS, heS, hspS⟩ := hB _ hmemL Side.south hoccL (by rw [hcdL]; exact hl)
        obtain ⟨kS1, kS2, kS3, kS4⟩ := hspS
        rw [hcdL] at heS hi1
        dsimp only at kS1 kS2 kS3 kS4
        refine ⟨?_, ?_, ?_, ?_, ?_⟩
        · intro e he
          rw [modifyEdge_edges, writeSide_edges] at he
          refine forall_mem_listModify _ _ s.edges hA ?_ e he
          intro e' he'
          rw [heS] at he'
          obtain rfl := Option.some.inj he'
          refine Or.inl ⟨?_, ?_⟩
          · show eS.sy = eS.ey
            omega
          · show eS.sx + 1 ≤ x + 1
            omega
        · intro p hp sd
          refine cellSideOK_modifyEdge occ _ _ _ p.1 p.2 sd hi1
            (cellSideOK_writeSide_other occ x y p.1 p.2 Side.south sd _ _ s (hnotP p hp)
              (hB p hp sd)) ?_
          intro e hoccP hexP hidP heP hspP
          rw [writeSide_edges] at heP
          rw [heS] at heP
          obtain rfl := Option.some.inj heP
          have hplex := hPlex p hp
          dsimp only [lexLT] at hplex
          cases sd with
          | north =>
            obtain ⟨k1, k2, k3, k4⟩ := hspP
            refine ⟨k1, k2, k3, ?_⟩
            show p.1 + 1 ≤ x + 1
            rcases hplex with h | ⟨h, h2⟩ <;> omega
          | south =>
            obtain ⟨k1, k2, k3, k4⟩ := hspP
            refine ⟨k1, k2, k3, ?_⟩
            show p.1 + 1 ≤ x + 1
            rcases hplex with h | ⟨h, h2⟩ <;> omega
          | east =>
            obtain ⟨k1, k2, k3, k4⟩ := hspP
            exact absurd k4 (by omega)
          | west =>
            obtain ⟨k1, k2, k3, k4⟩ := hspP
            exact absurd k4 (by omega)
        · refine cellSideOK_modifyEdge occ _ _ _ x y Side.north hi1
            (cellSideOK_writeSide_other_side occ x y Side.south Side.north _ _ s (by decide) hN) ?_
          intro e _ _ _ heP hspP
          rw [writeSide_edges] at heP
          rw [heS] at heP
          obtain rfl := Option.some.inj heP
          obtain ⟨k1, k2, k3, k4⟩ := hspP
          exact absurd k1 (by omega)
        · refine cellSideOK_modifyEdge occ _ _ _ x y Side.east hi1
            (cellSideOK_writeSide_other_side occ x y Side.south Side.east _ _ s (by decide) hE) ?_
          intro e _ _ _ heP hspP
          rw [writeSide_edges] at heP
          rw [heS] at heP
          obtain rfl := Option.some.inj heP
          obtain ⟨k1, k2, k3, k4⟩ := hspP
          exact absurd k3 (by omega)
        · intro _ _
          rw [modifyEdge_cellData, writeSide_id_self]
          refine ⟨hi1, ?_⟩
          rw [modifyEdge_edges, writeSide_edges, getElem?_listModify_self, heS]
          refine ⟨_, rfl, ?_⟩
          refine ⟨?_, ?_, ?_, ?_⟩
          · show eS.sy = y + 1
            omega
          · show eS.ey = y + 1
            omega
          · show eS.sx ≤ x
            omega
          · show (x : Int) + 1 ≤ x + 1
            exact le_refl _
      · rw [Bool.not_eq_true] at hl
        exact createCase (by rw [processSouth, processSide_create_of_flat Side.south x y _ _ s hS hgc hl])

theorem invStep_west (occ : Grid) (P : List (Int × Int)) (x y : Int) (s : EState)
    (hPcomp : ∀ a b : Int, occ a b = true → lexLT (a, b) (x, y) → (a, b) ∈ P)
    (hPlex : ∀ p ∈ P, lexLT p (x, y))
    (hA : ∀ e ∈ s.edges, edgeOK e)
    (hB : ∀ p ∈ P, ∀ sd, cellSideOK occ s p.1 p.2 sd)
    (hC : ∀ p ∈ P, ∀ q ∈ P, crossOK occ s p.1 p.2 q.1 q.2)
    (hFE : ∀ q ∈ P, crossOK occ s x y q.1 q.2)
    (hN : cellSideOK occ s x y Side.north)
    (hE : cellSideOK occ s x y Side.east)
    (hS : cellSideOK occ s x y Side.south) :
    (∀ e ∈ (processWest occ x y s).edges, edgeOK e) ∧
    (∀ p ∈ P, ∀ sd, cellSideOK occ (processWest occ x y s) p.1 p.2 sd) ∧
    cellSideOK occ (processWest occ x y s) x y Side.north ∧
    cellSideOK occ (processWest occ x y s) x y Side.east ∧
    cellSideOK occ (processWest occ x y s) x y Side.south ∧
    cellSideOK occ (processWest occ x y s) x y Side.west ∧
    (∀ p ∈ P, crossOK occ (processWest occ x y s) p.1 p.2 x y) ∧
    crossOK occ (processWest occ x y s) x y x y := by
  have hnotP : ∀ p ∈ P, ¬(p.1 = x ∧ p.2 = y) := by
    rintro ⟨a, b⟩ hp ⟨h1, h2⟩
    dsimp only at h1 h2
    subst h1
    subst h2
    exact lexLT_irrefl _ (hPlex _ hp)
  by_cases hW : occ (x - 1) y = true
  · rw [processWest, processSide_clear _ _ _ _ _ _ _ hW]
    refine ⟨hA, ?_, ?_, ?_, ?_, cellSideOK_writeSide_false occ x y Side.west s, ?_, ?_⟩
    · intro p hp sd
      exact cellSideOK_writeSide_other occ x y p.1 p.2 Side.west sd _ _ s (hnotP p hp) (hB p hp sd)
    · exact cellSideOK_writeSide_other_side occ x y Side.west Side.north _ _ s (by decide) hN
    · exact cellSideOK_writeSide_other_side occ x y Side.west Side.east _ _ s (by decide) hE
    · exact cellSideOK_writeSide_other_side occ x y Side.west Side.south _ _ s (by decide) hS
    · intro p hp _ _ _ hwX
      rw [writeSide_exist_self] at hwX
      exact Bool.noConfusion hwX
    · intro _ _ _ hwX
      rw [writeSide_exist_self] at hwX
      exact Bool.noConfusion hwX
  · rw [Bool.not_eq_true] at hW
    have createCase : ∀ hmk : processWest occ x y s =
        writeSide x y Side.west true (s.edges.length + 1)
          (appendEdge ⟨x, y, x, y + 1⟩ s),
        (∀ e ∈ (processWest occ x y s).edges, edgeOK e) ∧
        (∀ p ∈ P, ∀ sd, cellSideOK occ (processWest occ x y s) p.1 p.2 sd) ∧
        cellSideOK occ (processWest occ x y s) x y Side.north ∧
        cellSideOK occ (processWest occ x y s) x y Side.east ∧
        cellSideOK occ (processWest occ x y s) x y Side.south ∧
        cellSideOK occ (processWest occ x y s) x y Side.west ∧
        (∀ p ∈ P, crossOK occ (processWest occ x y s) p.1 p.2 x y) ∧
        crossOK occ (processWest occ x y s) x y x y := by
      intro hmk
      rw [hmk]
      refine ⟨?_, ?_, ?_, ?_, ?_, ?_, ?_, ?_⟩
      · intro e he
        rw [writeSide_edges, appendEdge_edges] at he
        rcases List.mem_append.mp he with h | h
        · exact hA e h
        · rw [List.mem_singleton] at h
          subst h
          exact Or.inr ⟨rfl, le_refl _⟩
      · intro p hp sd
        exact cellSideOK_writeSide_other occ x y p.1 p.2 Side.west sd _ _ _ (hnotP p hp)
          (cellSideOK_appendEdge occ _ s p.1 p.2 sd (hB p hp sd))
      · refine cellSideOK_writeSide_other_side occ x y Side.west Side.north _ _ _ (by decide) ?_
        exact cellSideOK_appendEdge occ _ s x y Side.north hN
      · refine cellSideOK_writeSide_other_side occ x y Side.west Side.east _ _ _ (by decide) ?_
        exact cellSideOK_appendEdge occ _ s x y Side.east hE
      · refine cellSideOK_writeSide_other_side occ x y Side.west Side.south _ _ _ (by decide) ?_
        exact cellSideOK_appendEdge occ _ s x y Side.south hS
      · refine cellSideOK_writeSide_true occ x y Side.west _ _ (by omega) ?_
        refine ⟨⟨x, y, x, y + 1⟩, ?_, ?_⟩
        · rw [appendEdge_edges, Nat.add_sub_cancel, List.getElem?_concat_length]
        · exact ⟨rfl, rfl, le_refl _, le_refl _⟩
      · intro p hp hoccP hoccX hexP _
        rw [writeSide_id_self]
        rw [writeSide_cellData_other x y p.1 p.2 Side.west _ _ _ (hnotP p hp),
          appendEdge_cellData] at hexP ⊢
        obtain ⟨h1, e, he, _⟩ := hB p hp Side.east hoccP hexP
        have := getElem?_lt_length he
        omega
      · intro hoccX _ hexX _
        rw [writeSide_id_self]
        rw [writeSide_exist_other_side x y Side.west Side.east _ _ _ (by decide),
          appendEdge_cellData] at hexX
        rw [writeSide_id_other_side x y Side.west Side.east _ _ _ (by decide),
          appendEdge_cellData]
        obtain ⟨h1, e, he, _⟩ := hE hoccX hexX
        have := getElem?_lt_length he
        omega
    rcases hgc : getCell occ s x (y - 1) with _ | t
    · exact createCase (by rw [processWest, processSide_create Side.west x y _ _ s hW hgc])
    · obtain ⟨hoccT, hcdT⟩ := getCell_some_inv occ s x (y - 1) t hgc
      have hmemT : ((x, y - 1) : Int × Int) ∈ P :=
        hPcomp x (y - 1) hoccT (Or.inr ⟨rfl, by omega⟩)
      by_cases ht : t.existEdges Side.west = true
      · -- reuse the top neighbor's west edge and stretch it to y + 1
        rw [processWest, processSide_extend Side.west x y _ _ s hW hgc ht]
        obtain ⟨hi1, eW, heW, hspW⟩ := hB _ hmemT Side.west hoccT (by rw [hcdT]; exact ht)
        obtain ⟨kW1, kW2, kW3, kW4⟩ := hspW
        rw [hcdT] at heW hi1
        dsimp only at kW1 kW2 kW3 kW4
        have hwT : (s.cellData x (y - 1)).existEdges Side.west = true := by
          rw [hcdT]; exact ht
        refine ⟨?_, ?_, ?_, ?_, ?_, ?_, ?_, ?_⟩
        · intro e he
          rw [modifyEdge_edges, writeSide_edges] at he
          refine forall_mem_listModify _ _ s.edges hA ?_ e he
          intro e' he'
          rw [heW] at he'
          obtain rfl := Option.some.inj he'
          refine Or.inr ⟨?_, ?_⟩
          · show eW.sx = eW.ex
            omega
          · show eW.sy + 1 ≤ y + 1
            omega
        · intro p hp sd
          refine cellSideOK_modifyEdge occ _ _ _ p.1 p.2 sd hi1
            (cellSideOK_writeSide_other occ x y p.1 p.2 Side.west sd _ _ s (hnotP p hp)
              (hB p hp sd)) ?_
          intro e hoccP hexP hidP heP hspP
          rw [writeSide_edges] at heP
          rw [writeSide_cellData_other x y p.1 p.2 Side.west _ _ s (hnotP p hp)] at hexP hidP
          rw [heW] at heP
          obtain rfl := Option.some.inj heP
          have hplex := hPlex p hp
          dsimp only [lexLT] at hplex
          cases sd with
          | north =>
            obtain ⟨k1, k2, k3, k4⟩ := hspP
            exact absurd k1 (by omega)
          | south =>
            obtain ⟨k1, k2, k3, k4⟩ := hspP
            exact absurd k1 (by omega)
          | east =>
            have hne := hC p hp _ hmemT hoccP hoccT hexP hwT
            rw [hcdT] at hne
            exact absurd hidP hne
          | west =>
            obtain ⟨k1, k2, k3, k4⟩ := hspP
            rcases hplex with h | ⟨h, h2⟩
            · exact absurd k1 (by omega)
            · refine ⟨k1, k2, k3, ?_⟩
              show p.2 + 1 ≤ y + 1
              omega
        · refine cellSideOK_modifyEdge occ _ _ _ x y Side.north hi1
            (cellSideOK_writeSide_other_side occ x y Side.west Side.north _ _ s (by decide) hN) ?_
          intro e _ _ _ heP hspP
          rw [writeSide_edges] at heP
          rw [heW] at heP
          obtain rfl := Option.some.inj heP
          obtain ⟨k1, k2, k3, k4⟩ := hspP
          exact absurd k1 (by omega)
        · refine cellSideOK_modifyEdge occ _ _ _ x y Side.east hi1
            (cellSideOK_writeSide_other_side occ x y Side.west Side.east _ _ s (by decide) hE) ?_
          intro e _ _ _ heP hspP
          rw [writeSide_edges] at heP
          rw [heW] at heP
          obtain rfl := Option.some.inj heP
          obtain ⟨k1, k2, k3, k4⟩ := hspP
          exact absurd k1 (by omega)
        · refine cellSideOK_modifyEdge occ _ _ _ x y Side.south hi1
            (cellSideOK_writeSide_other_side occ x y Side.west Side.south _ _ s (by decide) hS) ?_
          intro e _ _ _ heP hspP
          rw [writeSide_edges] at heP
          rw [heW] at heP
          obtain rfl := Option.some.inj heP
          obtain ⟨k1, k2, k3, k4⟩ := hspP
          exact absurd k1 (by omega)
        · intro _ _
          rw [modifyEdge_cellData, writeSide_id_self]
          refine ⟨hi1, ?_⟩
          rw [modifyEdge_edges, writeSide_edges, getElem?_listModify_self, heW]
          refine ⟨_, rfl, ?_⟩
          refine ⟨?_, ?_, ?_, ?_⟩
          · show eW.sx = x
            omega
          · show eW.ex = x
            omega
          · show eW.sy ≤ y
            omega
          · show (y : Int) + 1 ≤ y + 1
            exact le_refl _
        · intro p hp hoccP hoccX hexP _
          rw [modifyEdge_cellData, writeSide_id_self]
          rw [modifyEdge_cellData,
            writeSide_cellData_other x y p.1 p.2 Side.west _ _ s (hnotP p hp)] at hexP
          have hne := hC p hp _ hmemT hoccP hoccT hexP hwT
          rw [hcdT] at hne
          rw [writeSide_cellData_other x y p.1 p.2 Side.west _ _ s (hnotP p hp)]
          exact hne
        · intro hoccX _ hexX _
          rw [modifyEdge_cellData, writeSide_id_self]
          rw [modifyEdge_cellData,
            writeSide_exist_other_side x y Side.west Side.east _ _ s (by decide)] at hexX
          have hne := hFE _ hmemT hoccX hoccT hexX hwT
          rw [hcdT] at hne
          rw [writeSide_id_other_side x y Side.west Side.east _ _ s (by decide)]
          exact hne
      · rw [Bool.not_eq_true] at ht
        exact createCase (by rw [processWest, processSide_create_of_flat Side.west x y _ _ s hW hgc ht])

/-- The scan invariant after processing the set `P` of cells: every stored
edge is an axis-aligned unit-or-longer segment, every processed cell's side
bookkeeping points at a well-placed edge, and east ids never alias west ids
among processed cells. -/
def invStore (occ : Grid) (P : List (Int × Int)) (s : EState) : Prop :=
  (∀ e ∈ s.edges, edgeOK e) ∧
  (∀ p ∈ P, ∀ sd, cellSideOK occ s p.1 p.2 sd) ∧
  (∀ p ∈ P, ∀ q ∈ P, crossOK occ s p.1 p.2 q.1 q.2)

theorem invStep (occ : Grid) (P : List (Int × Int)) (x y : Int) (s : EState)
    (hPcomp : ∀ a b : Int, occ a b = true → lexLT (a, b) (x, y) → (a, b) ∈ P)
    (hPlex : ∀ p ∈ P, lexLT p (x, y))
    (hinv : invStore occ P s) :
    invStore occ (P ++ [(x, y)]) (processCell occ s (x, y)) := by
  obtain ⟨hA, hB, hC⟩ := hinv
  have hnotP : ∀ p ∈ P, ¬(p.1 = x ∧ p.2 = y) := by
    rintro ⟨a, b⟩ hp ⟨h1, h2⟩
    dsimp only at h1 h2
    subst h1
    subst h2
    exact lexLT_irrefl _ (hPlex _ hp)
  by_cases hocc : occ x y = true
  · rw [processCell_mk, if_pos hocc]
    obtain ⟨hA1, hB1, hN1⟩ := invStep_north occ P x y s hPcomp hPlex hA hB
    have hcd1 : ∀ p ∈ P,
        (processNorth occ x y s).cellData p.1 p.2 = s.cellData p.1 p.2 := by
      intro p hp
      rw [processNorth]
      exact processSide_cellData_other _ _ _ _ _ _ (hnotP p hp)
    have hC1 : ∀ p ∈ P, ∀ q ∈ P,
        crossOK occ (processNorth occ x y s) p.1 p.2 q.1 q.2 := by
      intro p hp q hq
      exact crossOK_congr occ s _ p.1 p.2 q.1 q.2 (by rw [hcd1 p hp]) (by rw [hcd1 p hp])
        (by rw [hcd1 q hq]) (by rw [hcd1 q hq]) (hC p hp q hq)
    obtain ⟨hA2, hB2, hN2, hE2, hFE2⟩ :=
      invStep_east occ P x y (processNorth occ x y s) hPcomp hPlex hA1 hB1 hC1 hN1
    have hcd2 : ∀ p ∈ P,
        (processEast occ x y (processNorth occ x y s)).cellData p.1 p.2 =
          (processNorth occ x y s).cellData p.1 p.2 := by
      intro p hp
      rw [processEast]
      exact processSide_cellData_other _ _ _ _ _ _ (hnotP p hp)
    have hC2 : ∀ p ∈ P, ∀ q ∈ P,
        crossOK occ (processEast occ x y (processNorth occ x y s)) p.1 p.2 q.1 q.2 := by
      intro p hp q hq
      exact crossOK_congr occ _ _ p.1 p.2 q.1 q.2 (by rw [hcd2 p hp]) (by rw [hcd2 p hp])
        (by rw [hcd2 q hq]) (by rw [hcd2 q hq]) (hC1 p hp q hq)
    obtain ⟨hA3, hB3, hN3, hE3, hS3⟩ :=
      invStep_south occ P x y _ hPcomp hPlex hA2 hB2 hN2 hE2
    have hcd3 : ∀ p ∈ P,
        (processSouth occ x y (processEast occ x y (processNorth occ x y s))).cellData p.1 p.2 =
          (processEast occ x y (processNorth occ x y s)).cellData p.1 p.2 := by
      intro p hp
      rw [processSouth]
      exact processSide_cellData_other _ _ _ _ _ _ (hnotP p hp)
    have hC3 : ∀ p ∈ P, ∀ q ∈ P,
        crossOK occ (processSouth occ x y (processEast occ x y (processNorth occ x y s)))
          p.1 p.2 q.1 q.2 := by
      intro p hp q hq
      exact crossOK_congr occ _ _ p.1 p.2 q.1 q.2 (by rw [hcd3 p hp]) (by rw [hcd3 p hp])
        (by rw [hcd3 q hq]) (by rw [hcd3 q hq]) (hC2 p hp q hq)
    have hFE3 : ∀ q ∈ P,
        crossOK occ (processSouth occ x y (processEast occ x y (processNorth occ x y s)))
          x y q.1 q.2 := by
      intro q hq
      refine crossOK_congr occ _ _ x y q.1 q.2 ?_ ?_ (by rw [hcd3 q hq]) (by rw [hcd3 q hq])
        (hFE2 q hq)
      · rw [processSouth]
        exact processSide_exist_other_side _ _ _ _ _ _ _ (by decide)
      · rw [processSouth]
        exact processSide_id_other_side _ _ _ _ _ _ _ (by decide)
    obtain ⟨hA4, hB4, hN4, hE4, hS4, hW4, hFW4, hself4⟩ :=
      invStep_west occ P x y _ hPcomp hPlex hA3 hB3 hC3 hFE3 hN3 hE3 hS3
    have hcd4 : ∀ p ∈ P,
        (processWest occ x y (processSouth occ x y (processEast occ x y
            (processNorth occ x y s)))).cellData p.1 p.2 =
          (processSouth occ x y (processEast occ x y
            (processNorth occ x y s))).cellData p.1 p.2 := by
      intro p hp
      rw [processWest]
      exact processSide_cellData_other _ _ _ _ _ _ (hnotP p hp)
    have hC4 : ∀ p ∈ P, ∀ q ∈ P,
        crossOK occ (processWest occ x y (processSouth occ x y (processEast occ x y
          (processNorth occ x y s)))) p.1 p.2 q.1 q.2 := by
      intro p hp q hq
      exact crossOK_congr occ _ _ p.1 p.2 q.1 q.2 (by rw [hcd4 p hp]) (by rw [hcd4 p hp])
        (by rw [hcd4 q hq]) (by rw [hcd4 q hq]) (hC3 p hp q hq)
    have hFE4 : ∀ q ∈ P,
        crossOK occ (processWest occ x y (processSouth occ x y (processEast occ x y
          (processNorth occ x y s)))) x y q.1 q.2 := by
      intro q hq
      refine crossOK_congr occ _ _ x y q.1 q.2 ?_ ?_ (by rw [hcd4 q hq]) (by rw [hcd4 q hq])
        (hFE3 q hq)
      · rw [processWest]
        exact processSide_exist_other_side _ _ _ _ _ _ _ (by decide)
      · rw [processWest]
        exact processSide_id_other_side _ _ _ _ _ _ _ (by decide)
    refine ⟨hA4, ?_, ?_⟩
    · intro p hp sd
      rcases List.mem_append.mp hp with h | h
      · exact hB4 p h sd
      · rw [List.mem_singleton] at h
        subst h
        cases sd with
        | north => exact hN4
        | east => exact hE4
        | south => exact hS4
        | west => exact hW4
    · intro p hp q hq
      rcases List.mem_append.mp hp with h | h
      · rcases List.mem_append.mp hq with h' | h'
        · exact hC4 p h q h'
        · rw [List.mem_singleton] at h'
          subst h'
          exact hFW4 p h
      · rw [List.mem_singleton] at h
        subst h
        rcases List.mem_append.mp hq with h' | h'
        · exact hFE4 q h'
        · rw [List.mem_singleton] at h'
          subst h'
          exact hself4
  · rw [processCell_mk, if_neg hocc]
    refine ⟨hA, ?_, ?_⟩
    · intro p hp sd
      rcases List.mem_append.mp hp with h | h
      · exact hB p h sd
      · rw [List.mem_singleton] at h
        subst h
        intro hocc'
        exact absurd hocc' hocc
    · intro p hp q hq
      rcases List.mem_append.mp hp with h | h
      · rcases List.mem_append.mp hq with h' | h'
        · exact hC p h q h'
        · rw [List.mem_singleton] at h'
          subst h'
          intro _ hocc'
          exact absurd hocc' hocc
      · rw [List.mem_singleton] at h
        subst h
        intro hocc'
        exact absurd hocc' hocc

theorem invStore_fold_aux (occ : Grid)
    (hext : ∀ a b : Int, occ a b = true → ((a, b) : Int × Int) ∈ scanPts) :
    ∀ rest pre : List (Int × Int), scanPts = pre ++ rest →
    ∀ s : EState, invStore occ pre s →
    invStore occ (pre ++ rest) (rest.foldl (processCell occ) s) := by
  intro rest
  induction rest with
  | nil =>
    intro pre hsplit s hinv
    simpa using hinv
  | cons pt rest ih =>
    intro pre hsplit s hinv
    obtain ⟨x, y⟩ := pt
    have hpw := scanPts_pairwise
    rw [hsplit, List.pairwise_append] at hpw
    have hPlex : ∀ p ∈ pre, lexLT p (x, y) :=
      fun p hp => hpw.2.2 p hp (x, y) (List.mem_cons_self _ _)
    have hPcomp : ∀ a b : Int, occ a b = true → lexLT (a, b) (x, y) → (a, b) ∈ pre := by
      intro a b hab hlex
      have hmem : ((a, b) : Int × Int) ∈ scanPts := hext a b hab
      rw [hsplit] at hmem
      rcases List.mem_append.mp hmem with h | h
      · exact h
      · exfalso
        rcases List.mem_cons.mp h with h' | h'
        · rw [h'] at hlex
          exact lexLT_irrefl _ hlex
        · exact lexLT_asymm ((List.pairwise_cons.mp hpw.2.1).1 _ h') hlex
    have hstep := invStep occ pre x y s hPcomp hPlex hinv
    have hrec := ih (pre ++ [(x, y)])
      (by rw [List.append_assoc, List.singleton_append]; exact hsplit)
      (processCell occ s (x, y)) hstep
    rw [List.append_assoc, List.singleton_append] at hrec
    exact hrec

/-- C10: every edge present after a recompute is axis-aligned and
normalized: horizontal with `sy = ey` and `sx < ex` (stated as
`sx + 1 ≤ ex`), or vertical with `sx = ex` and `sy < ey` (stated as
`sy + 1 ≤ ey`).  All four endpoint coordinates are integers in grid units
by construction (the embedding stores them as `Int`), and `sx + 1 ≤ ex`
resp. `sy + 1 ≤ ey` is exactly "length at least 1 grid unit".  The
hypothesis confines the occupancy map to the scanned 20 x 20 grid, which
is the only region `computeEdges` ever reads. -/
theorem computeEdges_axis_aligned_normalized (occ : Grid) (s : EState)
    (hext : ∀ a b : Int, occ a b = true → 0 ≤ a ∧ a < 20 ∧ 0 ≤ b ∧ b < 20) :
    ∀ e ∈ (computeEdges occ s).edges,
      (e.sy = e.ey ∧ e.sx + 1 ≤ e.ex) ∨ (e.sx = e.ex ∧ e.sy + 1 ≤ e.ey) := by
  have hext' : ∀ a b : Int, occ a b = true → ((a, b) : Int × Int) ∈ scanPts := by
    intro a b hab
    rw [mem_scanPts]
    exact hext a b hab
  have h0 : invStore occ [] { s with edges := [] } := by
    refine ⟨?_, ?_, ?_⟩
    · intro e he
      exact absurd he (List.not_mem_nil e)
    · intro p hp
      exact absurd hp (List.not_mem_nil p)
    · intro p hp
      exact absurd hp (List.not_mem_nil p)
  have hfold := invStore_fold_aux occ hext' scanPts [] rfl { s with edges := [] } h0
  exact hfold.1

/-- Witness for C10 at a concrete input: the three-cell row at `(4, 9)`
is inside the 20 x 20 extent, and the merged north edge `(4,9)-(7,9)` of
its recomputed edge set is horizontal, normalized, and at least one grid
unit long. -/
theorem computeEdges_axis_aligned_normalized_witness :
    ((⟨4, 9, 7, 9⟩ : Edge).sy = (⟨4, 9, 7, 9⟩ : Edge).ey ∧
      (⟨4, 9, 7, 9⟩ : Edge).sx + 1 ≤ (⟨4, 9, 7, 9⟩ : Edge).ex) ∨
    ((⟨4, 9, 7, 9⟩ : Edge).sx = (⟨4, 9, 7, 9⟩ : Edge).ex ∧
      (⟨4, 9, 7, 9⟩ : Edge).sy + 1 ≤ (⟨4, 9, 7, 9⟩ : Edge).ey) := by
  refine computeEdges_axis_aligned_normalized (occ3 4 9) initState ?_ ⟨4, 9, 7, 9⟩ ?_
  · intro a b hab
    have h : b = 9 ∧ (a = 4 ∨ a = 4 + 1 ∨ a = 4 + 2) := by
      simpa [occ3] using hab
    omega
  · rw [(computeEdges_occ3_eval 4 9 initState (by norm_num) (by norm_num) (by norm_num)
      (by norm_num)).1]
    decide
